import Mathlib

/-!
Verification development for the gosmi MIB parser.

The definitions below are a shallow embedding of the Go sources:

  * parser/lexer/lexer.go   — the handwritten lexer (function Next and its
    helper scanners lexText, lexQuotedString, lexASN1Tag, lexIdentifier,
    lexNumber, skipWhitespace, skipCommentRest, peekAhead, peekAheadN);
  * parser/common.go        — the Range / SyntaxType / SubType grammar;
  * parser/type.go          — TextualConvention / Sequence grammar;
  * parser/compliance.go    — ModuleCompliance / AgentCapabilities grammar;
  * parser/parser.go        — findMibFile, LoadMibTree, loadMibRecursive.

The input string is modelled as a `List Char` (one entry per rune).  The Go
lexer works on bytes and decodes UTF-8 runes; on ASCII input — the only kind
the character classes below accept for identifiers, digits and spaces — the
two views coincide, and every theorem and witness in this file is about
ASCII-only behaviour.  Each lexer helper takes the remaining input (a suffix
of the original string, positioned at the first character of the token) and
returns the emitted token together with the remaining input after the token,
mirroring the `l.start` / `l.pos` slices of the Go code.
-/

namespace Gosmi

/-- One rune of lexer input. -/
abbrev Input := List Char

/-- Shorthand: a string as a list of runes. -/
def cs (s : String) : List Char := s.toList

/-- Go `unicode.IsSpace`, restricted to the ASCII range
(space, tab, newline, carriage return, vertical tab, form feed). -/
def isSpaceCh (c : Char) : Bool :=
  c = ' ' || c = '\t' || c = '\n' || c = '\r' || c = '\x0b' || c = '\x0c'

/-- Go `unicode.IsDigit`, restricted to ASCII (the only runes in the
Latin-1 range that are Unicode decimal digits are 0-9). -/
def isDigitCh (c : Char) : Bool := '0' ≤ c && c ≤ '9'

/-- Go `unicode.IsLetter`, restricted to ASCII. -/
def isLetterCh (c : Char) : Bool :=
  ('a' ≤ c && c ≤ 'z') || ('A' ≤ c && c ≤ 'Z')

/-- lexer.go `isIdentifierStart`. -/
def isIdentifierStart (c : Char) : Bool := isLetterCh c

/-- lexer.go `isIdentifierChar`: letter, digit or hyphen. -/
def isIdentifierChar (c : Char) : Bool :=
  isLetterCh c || isDigitCh c || c = '-'

/-- lexer.go `isHexDigit`. -/
def isHexDigitCh (c : Char) : Bool :=
  ('0' ≤ c && c ≤ '9') || ('a' ≤ c && c ≤ 'f') || ('A' ≤ c && c ≤ 'F')

/-- The token kinds of parser/lexer/token/token.go that the lexer can emit
(Comment and Whitespace are consumed inside `Next` and never emitted). -/
inductive TokKind where
  | eof | illegal
  | ident | int | text | hexString | binString | extUTCTime | asn1Tag
  | objectIdentifier | octetString
  | assign | rangeTk | pipe | lbrace | rbrace | lparen | rparen
  | comma | semicolon | dot | minus
  deriving DecidableEq, Repr

/-- A lexed token: kind plus the value slice `l.input[l.start:l.pos]`
(for Text the normalized content, as in the Go code). -/
structure Tok where
  kind : TokKind
  value : List Char
  deriving DecidableEq, Repr

/-- The whitespace/comment skipping loop at the top of lexer.go `Next`
(and, with identical logic, the skipping inside `peekAheadN`), written with
an explicit in-comment flag so that the recursion is structural: in normal
mode (flag false) consume whitespace, and on `--` consume the first `-` and
switch to comment mode; in comment mode consume everything up to and
including the next newline.  Returns (consumed, rest). -/
def skipSplitM : List Char → Bool → List Char × List Char
  | [], _ => ([], [])
  | c :: r, true =>
    if c = '\n' then
      let p := skipSplitM r false
      (c :: p.1, p.2)
    else
      let p := skipSplitM r true
      (c :: p.1, p.2)
  | c :: r, false =>
    if isSpaceCh c then
      let p := skipSplitM r false
      (c :: p.1, p.2)
    else if c = '-' ∧ r.head? = some '-' then
      let p := skipSplitM r true
      (c :: p.1, p.2)
    else ([], c :: r)

/-- Consumed/rest split of the whitespace-and-comment skip. -/
def skipSplit (s : List Char) : List Char × List Char := skipSplitM s false

theorem skipSplitM_append (s : List Char) (m : Bool) :
    (skipSplitM s m).1 ++ (skipSplitM s m).2 = s := by
  induction s generalizing m with
  | nil => cases m <;> rfl
  | cons c r ih =>
    cases m <;> simp only [skipSplitM] <;> split_ifs <;> simp [ih]

theorem skipSplit_append (s : List Char) : (skipSplit s).1 ++ (skipSplit s).2 = s :=
  skipSplitM_append s false

theorem skipSplit_other {c : Char} (r : List Char) (h1 : isSpaceCh c = false)
    (h2 : ¬(c = '-' ∧ r.head? = some '-')) :
    skipSplit (c :: r) = ([], c :: r) := by
  simp [skipSplit, skipSplitM, h1, h2]

/-- The rest of the input once whitespace and comments are skipped. -/
def skipWs (s : List Char) : List Char := (skipSplit s).2

theorem skipWs_nonskip {c : Char} (r : List Char)
    (h1 : isSpaceCh c = false) (h2 : ¬(c = '-' ∧ r.head? = some '-')) :
    skipWs (c :: r) = c :: r := by
  simp [skipWs, skipSplit_other r h1 h2]

/-- lexer.go `skipWhitespace` (whitespace only, used inside `lexASN1Tag`):
split off the leading run of whitespace. -/
def wsSplit (s : List Char) : List Char × List Char :=
  (s.takeWhile isSpaceCh, s.dropWhile isSpaceCh)

/-- The scanning loop of lexer.go `lexText`, projected onto the raw consumed
characters: split the input after the opening quote into the raw content
(everything before the first unescaped `"`) and the rest after that quote.
`none` means EOF was reached first (including a pending escape at EOF). -/
def textScanRaw : List Char → Option (List Char × List Char)
  | [] => none
  | c :: r =>
    if c = '"' then some ([], r)
    else if c = '\\' then
      match r with
      | [] => none
      | e :: r2 =>
        match textScanRaw r2 with
        | none => none
        | some p => some (c :: e :: p.1, p.2)
    else
      match textScanRaw r with
      | none => none
      | some p => some (c :: p.1, p.2)

/-- The `strings.Builder` normalization of lexer.go `lexText`, re-run over the
raw content.  The two Bool arguments are the loop flags `atLineStart` and
`lastCharWasSpace`.  Escaped characters are written verbatim; `\r\n` drops
the `\r`; a standalone `\r` is treated as a space; a newline is written and
restarts the line; leading whitespace on a line is dropped; other runs of
spaces/tabs collapse to one space. -/
def normScan : List Char → Bool → Bool → List Char
  | [], _, _ => []
  | c :: r, atLS, lastWS =>
    if c = '\\' then
      match r with
      | [] => []
      | e :: r2 => e :: normScan r2 false false
    else if c = '\r' then
      if r.head? = some '\n' then normScan r atLS lastWS
      else if atLS then normScan r atLS lastWS
      else if lastWS then normScan r atLS lastWS
      else ' ' :: normScan r atLS true
    else if c = '\n' then '\n' :: normScan r true false
    else if c = ' ' ∨ c = '\t' then
      if atLS then normScan r atLS lastWS
      else if lastWS then normScan r atLS lastWS
      else ' ' :: normScan r atLS true
    else c :: normScan r false false

/-- The trailing-trim loop at the end of lexer.go `lexText`. -/
def isTrimCh (c : Char) : Bool := c = ' ' || c = '\n' || c = '\t'

def trimEndWs (s : List Char) : List Char := (s.reverse.dropWhile isTrimCh).reverse

/-- The normalized Text value: builder output with trailing whitespace
trimmed (lexText emits this without the surrounding quotes). -/
def textValue (raw : List Char) : List Char := trimEndWs (normScan raw true false)

/-- The ExtUTCTime test of lexer.go `lexText` lines 427-436 on the raw quoted
content: length 11 or 13 (10 or 12 digits plus suffix), last character `Z`
or `z`, all earlier characters decimal digits. -/
def utcShaped (ct : List Char) : Bool :=
  (ct.length == 11 || ct.length == 13) &&
  (ct.getLast? == some 'Z' || ct.getLast? == some 'z') &&
  ct.dropLast.all isDigitCh

/-- lexer.go `lexText`: the input starts at the opening double quote.
Unterminated literal: ILLEGAL covering everything consumed.  Terminated:
ExtUTCTime with the original lexeme (quotes kept, suffix untouched) when the
raw content is UTC-shaped, otherwise Text with the normalized content. -/
def lexText (s : List Char) : Tok × List Char :=
  match s with
  | '"' :: r =>
    match textScanRaw r with
    | none => (⟨.illegal, s⟩, [])
    | some p =>
      if utcShaped p.1 then (⟨.extUTCTime, '"' :: p.1 ++ ['"']⟩, p.2)
      else (⟨.text, textValue p.1⟩, p.2)
  | _ => (⟨.illegal, s⟩, s)

/-- The scanning loop of lexer.go `lexQuotedString`: input after the opening
single quote.  Returns (terminated?, content, rest): rest is after the
closing quote when terminated, otherwise still at the offending newline
(or empty at EOF), which the Go code does not consume. -/
def quoteScan : List Char → Bool × List Char × List Char
  | [] => (false, [], [])
  | c :: r =>
    if c = '\'' then (true, [], r)
    else if c = '\n' then (false, [], c :: r)
    else
      let p := quoteScan r
      (p.1, c :: p.2.1, p.2.2)

def isBinCh (c : Char) : Bool := c = '0' || c = '1'

/-- lexer.go `lexQuotedString`: the input starts at the opening single quote. -/
def lexQuotedString (s : List Char) : Tok × List Char :=
  match s with
  | '\'' :: r =>
    let q := quoteScan r
    if q.1 then
      match q.2.2 with
      | [] => (⟨.illegal, '\'' :: q.2.1 ++ ['\'']⟩, [])
      | c :: r2 =>
        if c = 'H' ∨ c = 'h' then
          (⟨if q.2.1.all isHexDigitCh then .hexString else .illegal,
            '\'' :: q.2.1 ++ ['\'', c]⟩, r2)
        else if c = 'B' ∨ c = 'b' then
          (⟨if q.2.1.all isBinCh then .binString else .illegal,
            '\'' :: q.2.1 ++ ['\'', c]⟩, r2)
        else if isSpaceCh c then
          (⟨.illegal, '\'' :: q.2.1 ++ ['\'']⟩, c :: r2)
        else
          (⟨.illegal, '\'' :: q.2.1 ++ ['\'', c]⟩, r2)
    else (⟨.illegal, '\'' :: q.2.1⟩, q.2.2)
  | _ => (⟨.illegal, s⟩, s)

/-- lexer.go `lexASN1Tag`: the input starts at `[`.  Expect optional
whitespace, the literal APPLICATION, optional whitespace, one or more
digits, optional whitespace and `]`; each failure point emits ILLEGAL over
exactly the slice the Go code keeps (value `[` alone when APPLICATION is
missing; up to where digits were expected; or everything consumed when `]`
is missing). -/
def lexASN1Tag (s : List Char) : Tok × List Char :=
  match s with
  | '[' :: r =>
    let w1 := wsSplit r
    if (cs "APPLICATION").isPrefixOf w1.2 then
      let afterApp := w1.2.drop 11
      let w2 := wsSplit afterApp
      if isDigitCh (w2.2.headD ' ') then
        let digs := w2.2.takeWhile isDigitCh
        let w3 := wsSplit (w2.2.dropWhile isDigitCh)
        if w3.2.head? = some ']' then
          (⟨.asn1Tag, '[' :: (w1.1 ++ cs "APPLICATION" ++ w2.1 ++ digs ++ w3.1) ++ [']']⟩,
            w3.2.tail)
        else
          (⟨.illegal, '[' :: (w1.1 ++ cs "APPLICATION" ++ w2.1 ++ digs ++ w3.1)⟩, w3.2)
      else
        (⟨.illegal, '[' :: (w1.1 ++ cs "APPLICATION" ++ w2.1)⟩, w2.2)
    else (⟨.illegal, ['[']⟩, r)
  | _ => (⟨.illegal, s⟩, s)

/-- lexer.go `lexNumber`: maximal run of decimal digits. -/
def lexNumber (s : List Char) : Tok × List Char :=
  (⟨.int, s.takeWhile isDigitCh⟩, s.dropWhile isDigitCh)

/-- The regular-identifier loop of lexer.go `lexIdentifier`: consume letters,
digits and hyphens, but stop in front of a `--` comment. -/
def identSplit : List Char → List Char × List Char
  | [] => ([], [])
  | c :: r =>
    if c = '-' ∧ r.head? = some '-' then ([], c :: r)
    else if isIdentifierChar c then
      let p := identSplit r
      (c :: p.1, p.2)
    else ([], c :: r)

/-- lexer.go `lexIdentifier`: multi-word lookahead for OBJECT IDENTIFIER and
OCTET STRING (via `peekAhead` / `peekAheadN`, which skips whitespace and
`--` comments), falling back to the regular identifier scan. -/
def lexIdentifier (s : List Char) : Tok × List Char :=
  if (cs "OBJECT").isPrefixOf s ∧ (cs "IDENTIFIER").isPrefixOf (skipWs (s.drop 6)) then
    (⟨.objectIdentifier, cs "OBJECT" ++ (skipSplit (s.drop 6)).1 ++ cs "IDENTIFIER"⟩,
      (skipWs (s.drop 6)).drop 10)
  else if (cs "OCTET").isPrefixOf s ∧ (cs "STRING").isPrefixOf (skipWs (s.drop 5)) then
    (⟨.octetString, cs "OCTET" ++ (skipSplit (s.drop 5)).1 ++ cs "STRING"⟩,
      (skipWs (s.drop 5)).drop 6)
  else
    (⟨.ident, (identSplit s).1⟩, (identSplit s).2)

/-- The switch of lexer.go `Next` on the first non-skipped character `c`
(with `r` the input after `c`). -/
def dispatch (c : Char) (r : List Char) : Tok × List Char :=
  if c = ':' then
      match r with
      | ':' :: r2 =>
        match r2 with
        | '=' :: r3 => (⟨.assign, cs "::="⟩, r3)
        | _ => (⟨.illegal, cs "::"⟩, r2)
      | _ => (⟨.illegal, [':']⟩, r)
    else if c = '.' then
      match r with
      | '.' :: r2 => (⟨.rangeTk, cs ".."⟩, r2)
      | _ => (⟨.dot, ['.']⟩, r)
    else if c = '|' then (⟨.pipe, [c]⟩, r)
    else if c = '\x7b' then (⟨.lbrace, [c]⟩, r)
    else if c = '\x7d' then (⟨.rbrace, [c]⟩, r)
    else if c = '(' then (⟨.lparen, [c]⟩, r)
    else if c = ')' then (⟨.rparen, [c]⟩, r)
    else if c = ',' then (⟨.comma, [c]⟩, r)
    else if c = ';' then (⟨.semicolon, [c]⟩, r)
    else if c = '-' then (⟨.minus, [c]⟩, r)
    else if c = '[' then lexASN1Tag (c :: r)
    else if c = '"' then lexText (c :: r)
    else if c = '\'' then lexQuotedString (c :: r)
    else if isDigitCh c then lexNumber (c :: r)
    else if isIdentifierStart c then lexIdentifier (c :: r)
    else (⟨.illegal, [c]⟩, r)

/-- lexer.go `Next`: skip whitespace and comments, emit EOF at the end of
input, otherwise dispatch on the first character. -/
def next (s : List Char) : Tok × List Char :=
  match skipWs s with
  | [] => (⟨.eof, []⟩, [])
  | c :: r => dispatch c r

theorem skipWs_colon (r : List Char) : skipWs (':' :: r) = ':' :: r :=
  skipWs_nonskip r (by decide) (by simp)

/-- Claim C7: on `:` `:` `=` the lexer emits an Assign token; on a lone `:`,
or on `::` not followed by `=` (including `::` at end of input), it emits a
single ILLEGAL token whose value is exactly the observed prefix
(`:` or `::`). -/
theorem claim_C7 :
    (∀ r : List Char, next (':' :: ':' :: '=' :: r) = (⟨.assign, cs "::="⟩, r)) ∧
    (∀ r : List Char, r.head? ≠ some '=' →
      next (':' :: ':' :: r) = (⟨.illegal, cs "::"⟩, r)) ∧
    (∀ r : List Char, r.head? ≠ some ':' →
      next (':' :: r) = (⟨.illegal, [':']⟩, r)) := by
  refine ⟨fun r => ?_, fun r h => ?_, fun r h => ?_⟩
  · simp [next, dispatch, skipWs_colon]
  · match r with
    | [] => simp [next, dispatch, skipWs_colon]
    | a :: t =>
      have ha : a ≠ '=' := by simpa using h
      simp [next, dispatch, skipWs_colon, ha]
  · match r with
    | [] => simp [next, dispatch, skipWs_colon]
    | a :: t =>
      have ha : a ≠ ':' := by simpa using h
      rw [next, skipWs_colon]
      simp [dispatch, ha]

/-- Witness for C7 at concrete inputs. -/
theorem claim_C7_witness :
    next (':' :: ':' :: '=' :: ['x']) = (⟨.assign, cs "::="⟩, ['x']) ∧
    next (':' :: ':' :: ['x']) = (⟨.illegal, cs "::"⟩, ['x']) ∧
    next (':' :: ':' :: []) = (⟨.illegal, cs "::"⟩, []) ∧
    next (':' :: ['x']) = (⟨.illegal, [':']⟩, ['x']) :=
  ⟨claim_C7.1 ['x'], claim_C7.2.1 ['x'] (by decide), claim_C7.2.1 [] (by decide),
    claim_C7.2.2 ['x'] (by decide)⟩

/-- Content characters that do not terminate a single-quoted scan early. -/
abbrev QClean (ct : List Char) : Prop := ∀ c ∈ ct, c ≠ '\'' ∧ c ≠ '\n'

theorem quoteScan_clean (ct rest : List Char) (h : QClean ct) :
    quoteScan (ct ++ '\'' :: rest) = (true, ct, rest) := by
  induction ct with
  | nil => simp [quoteScan]
  | cons c t ih =>
    have hc := h c (by simp)
    simp only [List.cons_append, quoteScan, hc.1, hc.2, if_false]
    simp [ih (fun x hx => h x (by simp [hx]))]

theorem quoteScan_nl (ct r : List Char) (h : QClean ct) :
    quoteScan (ct ++ '\n' :: r) = (false, ct, '\n' :: r) := by
  induction ct with
  | nil => simp [quoteScan]
  | cons c t ih =>
    have hc := h c (by simp)
    simp only [List.cons_append, quoteScan, hc.1, hc.2, if_false]
    simp [ih (fun x hx => h x (by simp [hx]))]

theorem quoteScan_eof (ct : List Char) (h : QClean ct) :
    quoteScan ct = (false, ct, []) := by
  induction ct with
  | nil => simp [quoteScan]
  | cons c t ih =>
    have hc := h c (by simp)
    simp only [quoteScan, hc.1, hc.2, if_false]
    rw [ih (fun x hx => h x (by simp [hx]))]

/-- Claim C6: a terminated single-quoted literal is classified by the
character immediately after the closing quote — `H`/`h` with all-hex content
gives HexString; `B`/`b` with all-binary content gives BinString; any other
suffix, or invalid content under `H`/`B`, gives ILLEGAL covering the quotes,
the content and the (non-whitespace) consumed suffix character; a literal
hitting a newline or EOF before the closing quote gives ILLEGAL. -/
theorem claim_C6 :
    (∀ ct rest suf, QClean ct → (suf = 'H' ∨ suf = 'h') → ct.all isHexDigitCh = true →
      lexQuotedString ('\'' :: ct ++ '\'' :: suf :: rest) =
        (⟨.hexString, '\'' :: ct ++ ['\'', suf]⟩, rest)) ∧
    (∀ ct rest suf, QClean ct → (suf = 'B' ∨ suf = 'b') → ct.all isBinCh = true →
      lexQuotedString ('\'' :: ct ++ '\'' :: suf :: rest) =
        (⟨.binString, '\'' :: ct ++ ['\'', suf]⟩, rest)) ∧
    (∀ ct rest suf, QClean ct → (suf = 'H' ∨ suf = 'h') → ct.all isHexDigitCh = false →
      lexQuotedString ('\'' :: ct ++ '\'' :: suf :: rest) =
        (⟨.illegal, '\'' :: ct ++ ['\'', suf]⟩, rest)) ∧
    (∀ ct rest suf, QClean ct → (suf = 'B' ∨ suf = 'b') → ct.all isBinCh = false →
      lexQuotedString ('\'' :: ct ++ '\'' :: suf :: rest) =
        (⟨.illegal, '\'' :: ct ++ ['\'', suf]⟩, rest)) ∧
    (∀ ct rest suf, QClean ct → ¬(suf = 'H' ∨ suf = 'h') → ¬(suf = 'B' ∨ suf = 'b') →
      isSpaceCh suf = false →
      lexQuotedString ('\'' :: ct ++ '\'' :: suf :: rest) =
        (⟨.illegal, '\'' :: ct ++ ['\'', suf]⟩, rest)) ∧
    (∀ ct rest suf, QClean ct → ¬(suf = 'H' ∨ suf = 'h') → ¬(suf = 'B' ∨ suf = 'b') →
      isSpaceCh suf = true →
      lexQuotedString ('\'' :: ct ++ '\'' :: suf :: rest) =
        (⟨.illegal, '\'' :: ct ++ ['\'']⟩, suf :: rest)) ∧
    (∀ ct, QClean ct →
      lexQuotedString ('\'' :: ct ++ ['\'']) =
        (⟨.illegal, '\'' :: ct ++ ['\'']⟩, [])) ∧
    (∀ ct r, QClean ct →
      lexQuotedString ('\'' :: ct ++ '\n' :: r) = (⟨.illegal, '\'' :: ct⟩, '\n' :: r)) ∧
    (∀ ct, QClean ct →
      lexQuotedString ('\'' :: ct) = (⟨.illegal, '\'' :: ct⟩, [])) := by
  refine ⟨fun ct rest suf h hs hv => ?_, fun ct rest suf h hs hv => ?_,
    fun ct rest suf h hs hv => ?_, fun ct rest suf h hs hv => ?_,
    fun ct rest suf h h1 h2 h3 => ?_, fun ct rest suf h h1 h2 h3 => ?_,
    fun ct h => ?_, fun ct r h => ?_, fun ct h => ?_⟩
  · simp [lexQuotedString, quoteScan_clean _ _ h, hs, hv]
  · have hH : ¬(suf = 'H' ∨ suf = 'h') := by
      rcases hs with h' | h' <;> simp [h']
    simp [lexQuotedString, quoteScan_clean _ _ h, hH, hs, hv]
  · simp [lexQuotedString, quoteScan_clean _ _ h, hs, hv]
  · have hH : ¬(suf = 'H' ∨ suf = 'h') := by
      rcases hs with h' | h' <;> simp [h']
    simp [lexQuotedString, quoteScan_clean _ _ h, hH, hs, hv]
  · simp [lexQuotedString, quoteScan_clean _ _ h, h1, h2, h3]
  · simp [lexQuotedString, quoteScan_clean _ _ h, h1, h2, h3]
  · have : '\'' :: ct ++ ['\''] = '\'' :: (ct ++ '\'' :: []) := by simp
    rw [this]
    simp [lexQuotedString, quoteScan_clean _ _ h]
  · simp [lexQuotedString, quoteScan_nl _ _ h]
  · match ct with
    | [] => simp [lexQuotedString, quoteScan_eof _ h]
    | c :: t => simp [lexQuotedString, quoteScan_eof _ h]

/-- Witness for C6 at concrete inputs. -/
theorem claim_C6_witness :
    lexQuotedString (cs "'0A'h x") = (⟨.hexString, cs "'0A'h"⟩, cs " x") ∧
    lexQuotedString (cs "'01'B") = (⟨.binString, cs "'01'B"⟩, []) ∧
    lexQuotedString (cs "'0G'H") = (⟨.illegal, cs "'0G'H"⟩, []) ∧
    lexQuotedString (cs "'02'b") = (⟨.illegal, cs "'02'b"⟩, []) ∧
    lexQuotedString (cs "'0A'X") = (⟨.illegal, cs "'0A'X"⟩, []) ∧
    lexQuotedString (cs "'0A' z") = (⟨.illegal, cs "'0A'"⟩, cs " z") ∧
    lexQuotedString (cs "'0A'") = (⟨.illegal, cs "'0A'"⟩, []) ∧
    lexQuotedString (cs "'ab\ncd") = (⟨.illegal, cs "'ab"⟩, cs "\ncd") ∧
    lexQuotedString (cs "'abc") = (⟨.illegal, cs "'abc"⟩, []) := by
  refine ⟨?_, ?_, ?_, ?_, ?_, ?_, ?_, ?_, ?_⟩
  · exact claim_C6.1 ['0', 'A'] (cs " x") 'h' (by decide) (by decide) (by decide)
  · exact claim_C6.2.1 ['0', '1'] [] 'B' (by decide) (by decide) (by decide)
  · exact claim_C6.2.2.1 ['0', 'G'] [] 'H' (by decide) (by decide) (by decide)
  · exact claim_C6.2.2.2.1 ['0', '2'] [] 'b' (by decide) (by decide) (by decide)
  · exact claim_C6.2.2.2.2.1 ['0', 'A'] [] 'X' (by decide) (by decide) (by decide) (by decide)
  · exact claim_C6.2.2.2.2.2.1 ['0', 'A'] ['z'] ' ' (by decide) (by decide) (by decide) (by decide)
  · exact claim_C6.2.2.2.2.2.2.1 ['0', 'A'] (by decide)
  · exact claim_C6.2.2.2.2.2.2.2.1 ['a', 'b'] ['c', 'd'] (by decide)
  · exact claim_C6.2.2.2.2.2.2.2.2 ['a', 'b', 'c'] (by decide)

/-- Content characters that do not interfere with the double-quoted scan
(no closing quote, no escape lead-in). -/
abbrev TClean (ct : List Char) : Prop := ∀ c ∈ ct, c ≠ '"' ∧ c ≠ '\\'

theorem textScanRaw_clean (ct rest : List Char) (h : TClean ct) :
    textScanRaw (ct ++ '"' :: rest) = some (ct, rest) := by
  induction ct with
  | nil =>
    rw [List.nil_append, textScanRaw.eq_def]
    simp
  | cons c t ih =>
    have hc := h c (by simp)
    rw [List.cons_append, textScanRaw.eq_def]
    simp [hc.1, hc.2, ih (fun x hx => h x (by simp [hx]))]

theorem skipWs_dquote (r : List Char) : skipWs ('"' :: r) = '"' :: r :=
  skipWs_nonskip r (by decide) (by simp)

theorem next_dquote (r : List Char) : next ('"' :: r) = lexText ('"' :: r) := by
  unfold next
  rw [skipWs_dquote]
  rfl

/-- Claim C1 (amended): a terminated double-quoted literal whose original
content is ten or twelve decimal digits followed by `Z` or `z` is emitted as
an ExtUTCTime token carrying the original lexeme, quotes included and the
suffix letter preserved exactly as written (the upper-casing belongs to the
parser's later token mapping, not to the lexer); every other terminated
double-quoted literal is emitted as a Text token carrying the normalized
content. -/
theorem claim_C1 :
    (∀ (ds : List Char) (suf : Char) (rest : List Char),
      ds.all isDigitCh = true → (ds.length = 10 ∨ ds.length = 12) →
      (suf = 'Z' ∨ suf = 'z') →
      next ('"' :: ds ++ suf :: '"' :: rest) =
        (⟨.extUTCTime, '"' :: ds ++ [suf, '"']⟩, rest)) ∧
    (∀ (ct rest : List Char), TClean ct → utcShaped ct = false →
      next ('"' :: ct ++ '"' :: rest) = (⟨.text, textValue ct⟩, rest)) := by
  constructor
  · intro ds suf rest hd hl hs
    have hcl : TClean (ds ++ [suf]) := by
      intro c hcmem
      rcases List.mem_append.1 hcmem with hm | hm
      · have hcd : isDigitCh c = true := List.all_eq_true.1 hd c hm
        constructor <;> (intro hEq; subst hEq; exact absurd hcd (by decide))
      · simp at hm
        subst hm
        rcases hs with h' | h' <;> subst h' <;> exact ⟨by decide, by decide⟩
    have hscan := textScanRaw_clean (ds ++ [suf]) rest hcl
    have hutc : utcShaped (ds ++ [suf]) = true := by
      have h1 : (ds ++ [suf]).getLast? = some suf := by
        simp [List.getLast?_concat]
      have h2 : (ds ++ [suf]).dropLast = ds := by
        simp [List.dropLast_concat]
      simp only [utcShaped, h1, h2, List.length_append, List.length_singleton]
      rcases hl with h' | h' <;> rcases hs with h2' | h2' <;> simp [h', h2', hd]
    have harr : ('"' : Char) :: ds ++ suf :: '"' :: rest =
        '"' :: ((ds ++ [suf]) ++ '"' :: rest) := by simp
    rw [harr, next_dquote, lexText, hscan]
    simp [hutc]
  · intro ct rest hcl hutc
    have hscan := textScanRaw_clean ct rest hcl
    have harr : ('"' : Char) :: ct ++ '"' :: rest = '"' :: (ct ++ '"' :: rest) := by simp
    rw [harr, next_dquote, lexText, hscan]
    simp [hutc]

/-- Counterexample to C1 as stated: on the double-quoted literal with
original content 0123456789z the lexer emits ExtUTCTime whose value keeps
the lowercase suffix letter; the claim mandates the upper-cased lexeme,
which is a different token value. -/
theorem claim_C1_counterexample :
    (next (cs "\"0123456789z\"")).1 = ⟨.extUTCTime, cs "\"0123456789z\""⟩ ∧
    cs "\"0123456789z\"" ≠ cs "\"0123456789Z\"" := by
  constructor
  · decide
  · decide

/-- Witness for C1 (amended) at concrete inputs. -/
theorem claim_C1_witness :
    next ('"' :: cs "0123456789" ++ 'z' :: '"' :: cs " X") =
      (⟨.extUTCTime, '"' :: cs "0123456789" ++ ['z', '"']⟩, cs " X") ∧
    next ('"' :: cs "abc" ++ '"' :: cs " Y") = (⟨.text, textValue (cs "abc")⟩, cs " Y") :=
  ⟨claim_C1.1 (cs "0123456789") 'z' (cs " X") (by decide) (by decide) (by decide),
    claim_C1.2 (cs "abc") (cs " Y") (by decide) (by decide)⟩

theorem next_O (r : List Char) : next ('O' :: r) = lexIdentifier ('O' :: r) := by
  unfold next
  rw [skipWs_nonskip r (by decide) (by simp)]
  rfl

/-- Claim C5: on a word starting OBJECT, the lexer looks ahead across any
run of whitespace and `--` comments; if the literal IDENTIFIER follows, it
emits a single ObjectIdentifier token spanning from OBJECT through
IDENTIFIER (with the skipped characters inside the value) and resumes right
after IDENTIFIER; OCTET / STRING behaves the same way producing OctetString;
when the follow-up is absent the first word is emitted as a plain Ident. -/
theorem claim_C5 :
    (∀ mid rest : List Char,
      skipWs (mid ++ cs "IDENTIFIER" ++ rest) = cs "IDENTIFIER" ++ rest →
      next (cs "OBJECT" ++ mid ++ cs "IDENTIFIER" ++ rest) =
        (⟨.objectIdentifier, cs "OBJECT" ++ mid ++ cs "IDENTIFIER"⟩, rest)) ∧
    (∀ tail : List Char,
      (cs "IDENTIFIER").isPrefixOf (skipWs tail) = false →
      identSplit tail = ([], tail) →
      next (cs "OBJECT" ++ tail) = (⟨.ident, cs "OBJECT"⟩, tail)) ∧
    (∀ mid rest : List Char,
      skipWs (mid ++ cs "STRING" ++ rest) = cs "STRING" ++ rest →
      next (cs "OCTET" ++ mid ++ cs "STRING" ++ rest) =
        (⟨.octetString, cs "OCTET" ++ mid ++ cs "STRING"⟩, rest)) ∧
    (∀ tail : List Char,
      (cs "STRING").isPrefixOf (skipWs tail) = false →
      identSplit tail = ([], tail) →
      next (cs "OCTET" ++ tail) = (⟨.ident, cs "OCTET"⟩, tail)) := by
  have hskip1 : ∀ t : List Char, (cs "OBJECT" ++ t).drop 6 = t := by
    intro t
    have h6 : (6 : Nat) = (cs "OBJECT").length := by decide
    rw [h6, List.drop_left]
  have hskip2 : ∀ t : List Char, (cs "OCTET" ++ t).drop 5 = t := by
    intro t
    have h5 : (5 : Nat) = (cs "OCTET").length := by decide
    rw [h5, List.drop_left]
  have hdrop10 : ∀ t : List Char, (cs "IDENTIFIER" ++ t).drop 10 = t := by
    intro t
    have h10 : (10 : Nat) = (cs "IDENTIFIER").length := by decide
    rw [h10, List.drop_left]
  have hdrop6 : ∀ t : List Char, (cs "STRING" ++ t).drop 6 = t := by
    intro t
    have h6 : (6 : Nat) = (cs "STRING").length := by decide
    rw [h6, List.drop_left]
  have hpre : ∀ l t : List Char, l.isPrefixOf (l ++ t) = true := by
    intro l t
    simp [List.isPrefixOf_iff_prefix]
  have hmidGen : ∀ mid w rest : List Char,
      skipWs (mid ++ w ++ rest) = w ++ rest →
      (skipSplit (mid ++ w ++ rest)).1 = mid := by
    intro mid w rest h
    have h2 := skipSplit_append (mid ++ w ++ rest)
    rw [show (skipSplit (mid ++ w ++ rest)).2 = w ++ rest from h] at h2
    have h3 : (skipSplit (mid ++ w ++ rest)).1 ++ (w ++ rest) =
        mid ++ (w ++ rest) := by simpa [List.append_assoc] using h2
    exact List.append_cancel_right h3
  refine ⟨fun mid rest h => ?_, fun tail h1 h2 => ?_,
    fun mid rest h => ?_, fun tail h1 h2 => ?_⟩
  · have hs : cs "OBJECT" ++ mid ++ cs "IDENTIFIER" ++ rest =
        'O' :: (cs "BJECT" ++ (mid ++ cs "IDENTIFIER" ++ rest)) := by simp [cs]
    have hmid := hmidGen mid (cs "IDENTIFIER") rest h
    rw [hs, next_O]
    show lexIdentifier (cs "OBJECT" ++ (mid ++ cs "IDENTIFIER" ++ rest)) = _
    rw [lexIdentifier, hskip1 (mid ++ cs "IDENTIFIER" ++ rest), h, hmid]
    rw [if_pos ⟨hpre (cs "OBJECT") _, hpre (cs "IDENTIFIER") _⟩]
    rw [hdrop10 rest]
  · have hs : cs "OBJECT" ++ tail = 'O' :: (cs "BJECT" ++ tail) := by simp [cs]
    rw [hs, next_O]
    show lexIdentifier (cs "OBJECT" ++ tail) = _
    rw [lexIdentifier, hskip1 tail]
    rw [if_neg (by
      intro hand
      rw [h1] at hand
      exact absurd hand.2 (by simp))]
    have hoct : (cs "OCTET").isPrefixOf (cs "OBJECT" ++ tail) = false := by
      simp [cs, List.isPrefixOf]
    rw [if_neg (by
      intro hand
      rw [hoct] at hand
      exact absurd hand.1 (by simp))]
    have hident : identSplit (cs "OBJECT" ++ tail) = (cs "OBJECT", tail) := by
      simp [cs, identSplit, isIdentifierChar, isLetterCh, h2]
    simp [hident]
  · have hs : cs "OCTET" ++ mid ++ cs "STRING" ++ rest =
        'O' :: (cs "CTET" ++ (mid ++ cs "STRING" ++ rest)) := by simp [cs]
    have hmid := hmidGen mid (cs "STRING") rest h
    rw [hs, next_O]
    show lexIdentifier (cs "OCTET" ++ (mid ++ cs "STRING" ++ rest)) = _
    rw [lexIdentifier]
    have hobj : (cs "OBJECT").isPrefixOf (cs "OCTET" ++ (mid ++ cs "STRING" ++ rest)) = false := by
      simp [cs, List.isPrefixOf]
    rw [if_neg (by
      intro hand
      rw [hobj] at hand
      exact absurd hand.1 (by simp))]
    rw [hskip2 (mid ++ cs "STRING" ++ rest), h, hmid]
    rw [if_pos ⟨hpre (cs "OCTET") _, hpre (cs "STRING") _⟩]
    rw [hdrop6 rest]
  · have hs : cs "OCTET" ++ tail = 'O' :: (cs "CTET" ++ tail) := by simp [cs]
    rw [hs, next_O]
    show lexIdentifier (cs "OCTET" ++ tail) = _
    rw [lexIdentifier]
    have hobj : (cs "OBJECT").isPrefixOf (cs "OCTET" ++ tail) = false := by
      simp [cs, List.isPrefixOf]
    rw [if_neg (by
      intro hand
      rw [hobj] at hand
      exact absurd hand.1 (by simp))]
    rw [hskip2 tail]
    rw [if_neg (by
      intro hand
      rw [h1] at hand
      exact absurd hand.2 (by simp))]
    have hident : identSplit (cs "OCTET" ++ tail) = (cs "OCTET", tail) := by
      simp [cs, identSplit, isIdentifierChar, isLetterCh, h2]
    simp [hident]

/-- Witness for C5 at concrete inputs (a comment and whitespace between the
two words; and a failing lookahead). -/
theorem claim_C5_witness :
    next (cs "OBJECT" ++ cs " -- c\n " ++ cs "IDENTIFIER" ++ cs " z") =
      (⟨.objectIdentifier, cs "OBJECT" ++ cs " -- c\n " ++ cs "IDENTIFIER"⟩, cs " z") ∧
    next (cs "OBJECT" ++ cs " (x)") = (⟨.ident, cs "OBJECT"⟩, cs " (x)") ∧
    next (cs "OCTET" ++ cs "  " ++ cs "STRING" ++ cs " y") =
      (⟨.octetString, cs "OCTET" ++ cs "  " ++ cs "STRING"⟩, cs " y") ∧
    next (cs "OCTET" ++ cs " 123") = (⟨.ident, cs "OCTET"⟩, cs " 123") :=
  ⟨claim_C5.1 (cs " -- c\n ") (cs " z") (by decide),
    claim_C5.2.1 (cs " (x)") (by decide) (by decide),
    claim_C5.2.2.1 (cs "  ") (cs " y") (by decide),
    claim_C5.2.2.2 (cs " 123") (by decide) (by decide)⟩

theorem dropWhile_length_le (p : Char → Bool) (l : List Char) :
    (l.dropWhile p).length ≤ l.length := by
  induction l with
  | nil => simp
  | cons c r ih =>
    by_cases h : p c <;> simp [List.dropWhile, h] <;> omega

theorem skipWs_length_le (s : List Char) : (skipWs s).length ≤ s.length := by
  conv_rhs => rw [← skipSplit_append s]
  simp [skipWs]

theorem textScanRaw_rest_le (r : List Char) :
    ∀ ct rest, textScanRaw r = some (ct, rest) → rest.length ≤ r.length := by
  induction r using textScanRaw.induct with
  | case1 =>
    intro ct rest h
    rw [textScanRaw.eq_def] at h
    simp at h
  | case2 r2 =>
    intro ct rest h
    rw [textScanRaw.eq_def] at h
    simp at h
    have hlen : rest.length = r2.length := by rw [← h.2]
    simp only [List.length_cons]
    omega
  | case3 h0 =>
    intro ct rest h
    rw [textScanRaw.eq_def] at h
    simp at h
  | case4 e r2 hn h0 ih =>
    intro ct rest h
    rw [textScanRaw.eq_def] at h
    simp [hn] at h
  | case5 e r2 p hp h0 ih =>
    intro ct rest h
    rcases p with ⟨pa, pb⟩
    rw [textScanRaw.eq_def] at h
    simp [hp] at h
    have hle := ih pa pb hp
    have hlen : rest.length = pb.length := by rw [← h.2]
    simp only [List.length_cons]
    omega
  | case6 e r2 h1 h2 hn ih =>
    intro ct rest h
    rw [textScanRaw.eq_def] at h
    simp [h1, h2, hn] at h
  | case7 e r2 h1 h2 p hp ih =>
    intro ct rest h
    rcases p with ⟨pa, pb⟩
    rw [textScanRaw.eq_def] at h
    simp [h1, h2, hp] at h
    have hle := ih pa pb hp
    have hlen : rest.length = pb.length := by rw [← h.2]
    simp only [List.length_cons]
    omega

theorem quoteScan_rest_le (r : List Char) : (quoteScan r).2.2.length ≤ r.length := by
  induction r with
  | nil => simp [quoteScan]
  | cons c t ih =>
    simp only [quoteScan]
    split_ifs <;> simp <;> omega

theorem lexText_rest_le (r : List Char) : (lexText ('"' :: r)).2.length ≤ r.length := by
  rcases h : textScanRaw r with _ | ⟨ct, rest⟩
  · simp [lexText, h]
  · have := textScanRaw_rest_le r ct rest h
    simp only [lexText, h]
    split_ifs <;> simpa

theorem lexQuoted_rest_le (r : List Char) :
    (lexQuotedString ('\'' :: r)).2.length ≤ r.length := by
  have hq := quoteScan_rest_le r
  rcases hqe : quoteScan r with ⟨t, ct, rest⟩
  rw [hqe] at hq
  simp only at hq
  simp only [lexQuotedString, hqe]
  cases t
  · simpa using hq
  · rcases rest with _ | ⟨c2, r2⟩
    · simp
    · have h2 : r2.length + 1 ≤ r.length := by simpa using hq
      by_cases hH : c2 = 'H' ∨ c2 = 'h'
      · simp [hH]; omega
      · by_cases hB : c2 = 'B' ∨ c2 = 'b'
        · simp [hH, hB]; omega
        · by_cases hS : isSpaceCh c2
          · simp [hH, hB, hS]; omega
          · simp [hH, hB, hS]; omega

theorem lexASN1_rest_le (r : List Char) :
    (lexASN1Tag ('[' :: r)).2.length ≤ r.length := by
  simp only [lexASN1Tag, wsSplit]
  have h1 : (r.dropWhile isSpaceCh).length ≤ r.length := dropWhile_length_le _ r
  split_ifs with hA hD hB
  · have h2 : ((r.dropWhile isSpaceCh).drop 11).length ≤ r.length := by
      rw [List.length_drop]; omega
    have h3 : (((r.dropWhile isSpaceCh).drop 11).dropWhile isSpaceCh).length ≤ r.length :=
      le_trans (dropWhile_length_le _ _) h2
    have h4 := dropWhile_length_le isDigitCh (((r.dropWhile isSpaceCh).drop 11).dropWhile isSpaceCh)
    have h5 := dropWhile_length_le isSpaceCh ((((r.dropWhile isSpaceCh).drop 11).dropWhile isSpaceCh).dropWhile isDigitCh)
    simp only [List.length_tail]
    omega
  · have h2 : ((r.dropWhile isSpaceCh).drop 11).length ≤ r.length := by
      rw [List.length_drop]; omega
    have h3 : (((r.dropWhile isSpaceCh).drop 11).dropWhile isSpaceCh).length ≤ r.length :=
      le_trans (dropWhile_length_le _ _) h2
    have h4 := dropWhile_length_le isDigitCh (((r.dropWhile isSpaceCh).drop 11).dropWhile isSpaceCh)
    have h5 := dropWhile_length_le isSpaceCh ((((r.dropWhile isSpaceCh).drop 11).dropWhile isSpaceCh).dropWhile isDigitCh)
    simp only []
    omega
  · have h2 : ((r.dropWhile isSpaceCh).drop 11).length ≤ r.length := by
      rw [List.length_drop]; omega
    have h3 := dropWhile_length_le isSpaceCh ((r.dropWhile isSpaceCh).drop 11)
    simp only []
    omega
  · exact le_refl _

theorem identSplit_rest_le (s : List Char) : (identSplit s).2.length ≤ s.length := by
  induction s with
  | nil => simp [identSplit]
  | cons c r ih =>
    simp only [identSplit]
    split_ifs <;> simp <;> omega

theorem lexIdentifier_rest_le (c : Char) (r : List Char)
    (h : isIdentifierStart c = true) :
    (lexIdentifier (c :: r)).2.length ≤ r.length := by
  simp only [lexIdentifier]
  have hskip6 := skipWs_length_le ((c :: r).drop 6)
  have hskip5 := skipWs_length_le ((c :: r).drop 5)
  have hd6 : ((c :: r).drop 6).length = r.length - 5 := by
    rw [List.length_drop]; simp
  have hd5 : ((c :: r).drop 5).length = r.length - 4 := by
    rw [List.length_drop]; simp
  split_ifs
  · simp only [List.length_drop]
    omega
  · simp only [List.length_drop]
    omega
  · have hl : isLetterCh c = true := h
    have hc : isIdentifierChar c = true := by
      simp [isIdentifierChar, hl]
    have hcm : ¬(c = '-' ∧ r.head? = some '-') := by
      rintro ⟨hc1, _⟩
      subst hc1
      simp [isIdentifierStart, isLetterCh] at h
    simp only [identSplit, hcm, if_false, hc, if_true]
    simpa using identSplit_rest_le r
theorem lexNumber_rest_le (c : Char) (r : List Char) (h : isDigitCh c = true) :
    (lexNumber (c :: r)).2.length ≤ r.length := by
  simp only [lexNumber, List.dropWhile_cons, h, if_true]
  exact dropWhile_length_le _ r

theorem dispatch_rest_le (c : Char) (r : List Char) :
    (dispatch c r).2.length ≤ r.length := by
  by_cases h1 : c = ':'
  · subst h1
    rcases r with _ | ⟨a, t⟩
    · simp_arith [dispatch]
    · by_cases ha : a = ':'
      · subst ha
        rcases t with _ | ⟨b, u⟩
        · simp_arith [dispatch]
        · by_cases hb : b = '='
          · subst hb
            simp_arith [dispatch]
          · simp_arith [dispatch, hb]
      · simp_arith [dispatch, ha]
  by_cases h2 : c = '.'
  · subst h2
    rcases r with _ | ⟨a, t⟩
    · simp_arith [dispatch]
    · by_cases ha : a = '.'
      · subst ha
        simp_arith [dispatch]
      · simp_arith [dispatch, ha]
  by_cases h11 : c = '['
  · subst h11
    have hred : dispatch '[' r = lexASN1Tag ('[' :: r) := rfl
    rw [hred]
    exact lexASN1_rest_le r
  by_cases h12 : c = '"'
  · subst h12
    have hred : dispatch '"' r = lexText ('"' :: r) := rfl
    rw [hred]
    exact lexText_rest_le r
  by_cases h13 : c = '\''
  · subst h13
    have hred : dispatch '\'' r = lexQuotedString ('\'' :: r) := rfl
    rw [hred]
    exact lexQuoted_rest_le r
  by_cases h3 : c = '|'
  · subst h3; simp_arith [dispatch]
  by_cases h4 : c = '\x7b'
  · subst h4; simp_arith [dispatch]
  by_cases h5 : c = '\x7d'
  · subst h5; simp_arith [dispatch]
  by_cases h6 : c = '('
  · subst h6; simp_arith [dispatch]
  by_cases h7 : c = ')'
  · subst h7; simp_arith [dispatch]
  by_cases h8 : c = ','
  · subst h8; simp_arith [dispatch]
  by_cases h9 : c = ';'
  · subst h9; simp_arith [dispatch]
  by_cases h10 : c = '-'
  · subst h10; simp_arith [dispatch]
  by_cases h14 : isDigitCh c = true
  · have hred : dispatch c r = lexNumber (c :: r) := by
      simp [dispatch, h1, h2, h3, h4, h5, h6, h7, h8, h9, h10, h11, h12, h13, h14]
    rw [hred]
    exact lexNumber_rest_le c r h14
  by_cases h15 : isIdentifierStart c = true
  · have hred : dispatch c r = lexIdentifier (c :: r) := by
      simp [dispatch, h1, h2, h3, h4, h5, h6, h7, h8, h9, h10, h11, h12, h13, h14, h15]
    rw [hred]
    exact lexIdentifier_rest_le c r h15
  · have hred : dispatch c r = (⟨.illegal, [c]⟩, r) := by
      simp [dispatch, h1, h2, h3, h4, h5, h6, h7, h8, h9, h10, h11, h12, h13, h14, h15]
    rw [hred]

theorem next_nil : next [] = (⟨.eof, []⟩, []) := rfl

theorem next_progress (s : List Char) :
    ((next s).1.kind = .eof ∧ (next s).2 = []) ∨ (next s).2.length < s.length := by
  rcases hsk : skipWs s with _ | ⟨c, r⟩
  · left
    unfold next
    rw [hsk]
    exact ⟨rfl, rfl⟩
  · right
    have hlen : r.length + 1 ≤ s.length := by
      have ha := skipSplit_append s
      have hb : (skipSplit s).2 = c :: r := hsk
      have hc := congrArg List.length ha
      rw [List.length_append, hb] at hc
      simp at hc
      omega
    have hd := dispatch_rest_le c r
    unfold next
    rw [hsk]
    show (dispatch c r).2.length < s.length
    omega

/-- One step of repeated lexing: the rest of the input after one `next`. -/
def lexRest (s : List Char) : List Char := (next s).2

theorem lexRest_nil_iter (m : Nat) : Nat.iterate lexRest m [] = [] := by
  induction m with
  | zero => rfl
  | succ k ih =>
    rw [Function.iterate_succ_apply, show lexRest [] = [] from rfl, ih]

/-- Claim C8: for every finite input, repeated calls to `next` reach EOF
within length-many steps and stay at EOF forever after; in particular an
unclosed APPLICATION tag yields a single ILLEGAL token covering the
consumed prefix, followed immediately by EOF. -/
theorem claim_C8 :
    (∀ s : List Char, ∃ n, n ≤ s.length ∧ ∀ m, n ≤ m →
      (next (Nat.iterate lexRest m s)).1.kind = .eof) ∧
    next (cs "[APPLICATION 123") = (⟨.illegal, cs "[APPLICATION 123"⟩, []) ∧
    next (cs "[APPLICATION") = (⟨.illegal, cs "[APPLICATION"⟩, []) := by
  refine ⟨fun s => ?_, by decide, by decide⟩
  have main : ∀ L (s : List Char), s.length ≤ L → ∃ n, n ≤ s.length ∧ ∀ m, n ≤ m →
      (next (Nat.iterate lexRest m s)).1.kind = .eof := by
    intro L
    induction L with
    | zero =>
      intro s hs
      have hnil : s = [] := List.length_eq_zero.1 (Nat.le_zero.1 hs)
      subst hnil
      refine ⟨0, Nat.le_refl 0, fun m _ => ?_⟩
      rw [lexRest_nil_iter m, next_nil]
    | succ k ih =>
      intro s hs
      rcases next_progress s with ⟨he, hnil⟩ | hlt
      · refine ⟨0, Nat.zero_le _, fun m _ => ?_⟩
        match m with
        | 0 => simpa using he
        | m + 1 =>
          rw [Function.iterate_succ_apply, show lexRest s = [] from hnil,
            lexRest_nil_iter m, next_nil]
      · have hs2 : (lexRest s).length ≤ k := by
          have : (next s).2.length < s.length := hlt
          simp only [lexRest]
          omega
        obtain ⟨n, hn1, hn2⟩ := ih (lexRest s) hs2
        refine ⟨n + 1, ?_, fun m hm => ?_⟩
        · have : (lexRest s).length < s.length := hlt
          omega
        · match m, hm with
          | m + 1, hm =>
            rw [Function.iterate_succ_apply]
            exact hn2 m (by omega)
  exact main s.length s (le_refl _)

/-- Witness for C8: the quantified part applied at a concrete input. -/
theorem claim_C8_witness :
    ∃ n, n ≤ (cs "x [APPLICATION").length ∧ ∀ m, n ≤ m →
      (next (Nat.iterate lexRest m (cs "x [APPLICATION"))).1.kind = .eof :=
  claim_C8.1 (cs "x [APPLICATION")

/-!
Grammar-level embedding.  The participle grammar of parser/common.go,
parser/type.go and parser/compliance.go works on the token stream; a quoted
literal in a grammar tag matches any token whose Value equals the literal,
and a capitalized name (Int, Ident, BinString, HexString, OctetString,
ObjectIdentifier) matches by token type.  Tokens are modelled as kind/value
pairs and each production becomes a function from the token list to an
optional (capture, rest) pair, with participle's ordered-choice
backtracking made explicit.
-/

/-- A grammar-level token: lexer kind and value. -/
structure PTok where
  kind : TokKind
  val : String
  deriving DecidableEq, Repr

def idTok (v : String) : PTok := ⟨.ident, v⟩
def intTok (v : String) : PTok := ⟨.int, v⟩
def binTok (v : String) : PTok := ⟨.binString, v⟩
def hexTok (v : String) : PTok := ⟨.hexString, v⟩
def minusTok : PTok := ⟨.minus, "-"⟩
def lparenTok : PTok := ⟨.lparen, "("⟩
def rparenTok : PTok := ⟨.rparen, ")"⟩
def lbraceTok : PTok := ⟨.lbrace, "\x7b"⟩
def rbraceTok : PTok := ⟨.rbrace, "\x7d"⟩
def commaTok : PTok := ⟨.comma, ","⟩
def dotdotTok : PTok := ⟨.rangeTk, ".."⟩

@[simp] theorem idTok_kind (v : String) : (idTok v).kind = .ident := rfl
@[simp] theorem idTok_val (v : String) : (idTok v).val = v := rfl
@[simp] theorem intTok_kind (v : String) : (intTok v).kind = .int := rfl
@[simp] theorem intTok_val (v : String) : (intTok v).val = v := rfl
@[simp] theorem binTok_kind (v : String) : (binTok v).kind = .binString := rfl
@[simp] theorem hexTok_kind (v : String) : (hexTok v).kind = .hexString := rfl
@[simp] theorem lparenTok_val : lparenTok.val = "(" := rfl
@[simp] theorem rparenTok_val : rparenTok.val = ")" := rfl
@[simp] theorem lbraceTok_val : lbraceTok.val = "\x7b" := rfl
@[simp] theorem rbraceTok_val : rbraceTok.val = "\x7d" := rfl
@[simp] theorem rbraceTok_kind : rbraceTok.kind = .rbrace := rfl
@[simp] theorem commaTok_val : commaTok.val = "," := rfl
@[simp] theorem commaTok_kind : commaTok.kind = .comma := rfl

/-- parser/common.go (the repository's version, with Ident admitted): one
Range endpoint, the tag alternation `"-"? Int | BinString | HexString |
Ident`.  The capture is the concatenation of the matched token values. -/
def parseRangeEndpoint : List PTok → Option (String × List PTok)
  | t :: rest =>
    if t.val = "-" then
      match rest with
      | i :: rest2 => if i.kind = .int then some ("-" ++ i.val, rest2) else none
      | [] => none
    else if t.kind = .int then some (t.val, rest)
    else if t.kind = .binString then some (t.val, rest)
    else if t.kind = .hexString then some (t.val, rest)
    else if t.kind = .ident then some (t.val, rest)
    else none
  | [] => none

/-- A parsed Range: Start and optional End, stored as the raw lexemes
(common.go struct Range). -/
structure PRange where
  start : String
  stop : Option String
  deriving DecidableEq, Repr

/-- parser/common.go Range: endpoint followed by an optional `".." endpoint`. -/
def parseRange (ts : List PTok) : Option (PRange × List PTok) :=
  match parseRangeEndpoint ts with
  | none => none
  | some (s, rest) =>
    match rest with
    | t :: rest2 =>
      if t.val = ".." then
        match parseRangeEndpoint rest2 with
        | none => none
        | some (e, rest3) => some (⟨s, some e⟩, rest3)
      else some (⟨s, none⟩, rest)
    | [] => some (⟨s, none⟩, [])

/-- The shapes a Range endpoint can take in the token stream. -/
inductive EndpointForm where
  | int (neg : Bool) (v : String)
  | bin (v : String)
  | hex (v : String)
  | ident (v : String)
  deriving DecidableEq, Repr

def epToks : EndpointForm → List PTok
  | .int true v => [minusTok, intTok v]
  | .int false v => [intTok v]
  | .bin v => [binTok v]
  | .hex v => [hexTok v]
  | .ident v => [idTok v]

/-- The lexeme the parser stores for an endpoint (captured token values). -/
def epLexeme : EndpointForm → String
  | .int true v => "-" ++ v
  | .int false v => v
  | .bin v => v
  | .hex v => v
  | .ident v => v

/-- The endpoint's first token value is not the literal `-` (true for every
token the lexer can produce in these positions). -/
def epOk : EndpointForm → Bool
  | .int _ v => v != "-"
  | .bin v => v != "-"
  | .hex v => v != "-"
  | .ident v => v != "-"

theorem parseRangeEndpoint_form (f : EndpointForm) (rest : List PTok) (h : epOk f = true) :
    parseRangeEndpoint (epToks f ++ rest) = some (epLexeme f, rest) := by
  rcases f with ⟨neg, v⟩ | v | v | v <;> simp [epOk] at h
  · cases neg <;>
      simp [epToks, epLexeme, parseRangeEndpoint, intTok, minusTok, h]
  · simp [epToks, epLexeme, parseRangeEndpoint, binTok, h]
  · simp [epToks, epLexeme, parseRangeEndpoint, hexTok, h]
  · simp [epToks, epLexeme, parseRangeEndpoint, idTok, h]

/-- Claim C2: integer-family range constraints accept MIN and MAX (indeed
any identifier) as endpoints, along with optionally-negated decimal
integers, hex strings and binary strings, and the endpoint lexeme is stored
unchanged in Range.Start / Range.End. -/
theorem claim_C2 :
    (∀ (f1 f2 : EndpointForm) (rest : List PTok), epOk f1 = true → epOk f2 = true →
      (epToks f2 ++ rest).head?.map PTok.val ≠ some ".." →
      parseRange (epToks f1 ++ (dotdotTok :: (epToks f2 ++ rest))) =
        some (⟨epLexeme f1, some (epLexeme f2)⟩, rest)) ∧
    (∀ (f : EndpointForm) (rest : List PTok), epOk f = true →
      rest.head?.map PTok.val ≠ some ".." →
      parseRange (epToks f ++ rest) = some (⟨epLexeme f, none⟩, rest)) ∧
    parseRange [idTok "MIN", dotdotTok, idTok "MAX"] =
      some (⟨"MIN", some "MAX"⟩, []) ∧
    epLexeme (.ident "MIN") = "MIN" ∧ epLexeme (.ident "MAX") = "MAX" := by
  have hone : ∀ (f : EndpointForm) (rest : List PTok), epOk f = true →
      rest.head?.map PTok.val ≠ some ".." →
      parseRange (epToks f ++ rest) = some (⟨epLexeme f, none⟩, rest) := by
    intro f rest h hh
    have hf := parseRangeEndpoint_form f rest h
    rcases rest with _ | ⟨t, rest2⟩
    · rw [List.append_nil] at hf
      simp [parseRange, hf]
    · have ht : t.val ≠ ".." := by simpa using hh
      simp only [parseRange, hf]
      simp [ht]
  refine ⟨fun f1 f2 rest h1 h2 hh => ?_, hone, by decide, rfl, rfl⟩
  have hf1 := parseRangeEndpoint_form f1 (dotdotTok :: (epToks f2 ++ rest)) h1
  have hf2 := parseRangeEndpoint_form f2 rest h2
  simp only [parseRange, hf1]
  simp [dotdotTok, hf2]

/-- Witness for C2 at concrete inputs: MIN..MAX, a negated integer, a hex
endpoint. -/
theorem claim_C2_witness :
    parseRange (epToks (.ident "MIN") ++ (dotdotTok :: (epToks (.ident "MAX") ++ []))) =
      some (⟨"MIN", some "MAX"⟩, []) ∧
    parseRange (epToks (.int true "5") ++
        (dotdotTok :: (epToks (.hex "'FF'H") ++ [rparenTok]))) =
      some (⟨"-5", some "'FF'H"⟩, [rparenTok]) ∧
    parseRange (epToks (.bin "'01'B") ++ [rparenTok]) =
      some (⟨"'01'B", none⟩, [rparenTok]) :=
  ⟨claim_C2.1 (.ident "MIN") (.ident "MAX") [] (by decide) (by decide) (by decide),
    claim_C2.1 (.int true "5") (.hex "'FF'H") [rparenTok] (by decide) (by decide) (by decide),
    claim_C2.2.1 (.bin "'01'B") [rparenTok] (by decide) (by decide)⟩

/-- The STATUS clause shared by TEXTUAL-CONVENTION (parser/type.go line 13),
MODULE-COMPLIANCE (parser/compliance.go line 101) and AGENT-CAPABILITIES
(parser/compliance.go line 35):
`"STATUS" @( "current" | "deprecated" | "obsolete" )`. -/
def parseStatusClause : List PTok → Option (String × List PTok)
  | s :: v :: rest =>
    if s.val = "STATUS" ∧ (v.val = "current" ∨ v.val = "deprecated" ∨ v.val = "obsolete")
    then some (v.val, rest) else none
  | _ => none

/-- Counterexample to C4 as stated: the STATUS clauses of the cited macros
(TEXTUAL-CONVENTION, MODULE-COMPLIANCE, AGENT-CAPABILITIES) reject
`mandatory` and `optional`, two of the five values the claim says every
STATUS clause accepts. -/
theorem claim_C4_counterexample :
    parseStatusClause [idTok "STATUS", idTok "mandatory"] = none ∧
    parseStatusClause [idTok "STATUS", idTok "optional"] = none := by
  constructor <;> decide

/-- Claim C4 (amended): the STATUS clauses of TEXTUAL-CONVENTION,
MODULE-COMPLIANCE and AGENT-CAPABILITIES accept exactly the identifiers
current, deprecated, obsolete, and fail on every other value (including
mandatory and optional). -/
theorem claim_C4 :
    (∀ (v : String) (rest : List PTok),
      (v = "current" ∨ v = "deprecated" ∨ v = "obsolete") →
      parseStatusClause (idTok "STATUS" :: idTok v :: rest) = some (v, rest)) ∧
    (∀ (v : String) (rest : List PTok),
      ¬(v = "current" ∨ v = "deprecated" ∨ v = "obsolete") →
      parseStatusClause (idTok "STATUS" :: idTok v :: rest) = none) := by
  constructor
  · intro v rest h
    simp [parseStatusClause, idTok, h]
  · intro v rest h
    simp [parseStatusClause, idTok, h]

/-- Witness for C4 (amended) at concrete inputs. -/
theorem claim_C4_witness :
    parseStatusClause (idTok "STATUS" :: idTok "deprecated" :: [rbraceTok]) =
      some ("deprecated", [rbraceTok]) ∧
    parseStatusClause (idTok "STATUS" :: idTok "mandatory" :: [rbraceTok]) = none :=
  ⟨claim_C4.1 "deprecated" [rbraceTok] (by decide),
    claim_C4.2 "mandatory" [rbraceTok] (by decide)⟩

/-- A signed integer capture `@( "-"? Int )` (NamedNumber value,
common.go line 136). -/
def parseSignedInt : List PTok → Option (String × List PTok)
  | t :: rest =>
    if t.val = "-" then
      match rest with
      | i :: rest2 => if i.kind = .int then some ("-" ++ i.val, rest2) else none
      | [] => none
    else if t.kind = .int then some (t.val, rest)
    else none
  | [] => none

/-- parser/common.go NamedNumber (lines 132-137): `@Ident "(" @("-"? Int) ")"`. -/
def parseNamedNumber (ts : List PTok) : Option ((String × String) × List PTok) :=
  match ts with
  | n :: p :: rest =>
    if n.kind = .ident ∧ p.val = "(" then
      (match parseSignedInt rest with
        | some (v, c :: rest3) =>
          if c.val = ")" then some ((n.val, v), rest3) else none
        | _ => none)
    else none
  | _ => none

/-- The repetition `( sep item )*` of a participle tag, with the ordered
sep-then-item group backtracked as a whole when the item fails after the
separator.  The fuel is the length of the list at the call site; every loop
iteration consumes at least the separator token. -/
def sepRest (sep : String) (p : List PTok → Option (α × List PTok)) :
    Nat → List PTok → List α × List PTok
  | 0, ts => ([], ts)
  | fuel + 1, ts =>
    match ts with
    | c :: rest =>
      if c.val = sep then
        (match p rest with
          | some (a, rest2) =>
            let q := sepRest sep p fuel rest2
            (a :: q.1, q.2)
          | none => ([], c :: rest))
      else ([], c :: rest)
    | [] => ([], [])

/-- A participle separated list `@@ ( sep @@ )* sep?` (the final `sep?` only
when `allowTrailing`, modelling the `","?` of the grammar tags). -/
def parseSepList (sep : String) (p : List PTok → Option (α × List PTok))
    (allowTrailing : Bool) (ts : List PTok) : Option (List α × List PTok) :=
  match p ts with
  | none => none
  | some (a, rest) =>
    let q := sepRest sep p rest.length rest
    if allowTrailing then
      match q.2 with
      | c :: rest3 =>
        if c.val = sep then some (a :: q.1, rest3) else some (a :: q.1, q.2)
      | [] => some (a :: q.1, [])
    else some (a :: q.1, q.2)

/-- Items laid out in the token stream: each item's tokens preceded by the
separator (the shape `( sep item )*` consumes). -/
def joinSepPre (sep : String) (its : List (List PTok)) : List PTok :=
  its.flatMap (fun i => ⟨.comma, sep⟩ :: i)

/-- The sepRest loop stops at `tail`: its head is not the separator, or the
item parser fails right after it. -/
def sepStop (sep : String) (p : List PTok → Option (α × List PTok))
    (tail : List PTok) : Prop :=
  match tail with
  | c :: r => c.val ≠ sep ∨ p r = none
  | [] => True

theorem sepRest_exact (sep : String) (p : List PTok → Option (α × List PTok))
    (headOk : Option String → Prop) (its : List (List PTok × α))
    (hp : ∀ iv ∈ its, ∀ r : List PTok, headOk (r.head?.map PTok.val) →
      p (iv.1 ++ r) = some (iv.2, r)) :
    ∀ (fuel : Nat) (tail : List PTok), sepStop sep p tail →
    headOk (some sep) → headOk (tail.head?.map PTok.val) →
    (joinSepPre sep (its.map Prod.fst) ++ tail).length ≤ fuel →
    sepRest sep p fuel (joinSepPre sep (its.map Prod.fst) ++ tail) =
      (its.map Prod.snd, tail) := by
  induction its with
  | nil =>
    intro fuel tail hstop hOkSep hOkTail hlen
    simp only [joinSepPre, List.map_nil, List.flatMap_nil, List.nil_append]
    match fuel, tail, hstop with
    | 0, _, _ => simp [sepRest]
    | fuel + 1, [], _ => simp [sepRest]
    | fuel + 1, c :: r, hstop =>
      simp only [sepRest]
      rcases hstop with h | h
      · simp [h]
      · by_cases hc : c.val = sep
        · simp [hc, h]
        · simp [hc]
  | cons iv its ih =>
    intro fuel tail hstop hOkSep hOkTail hlen
    have hctx : headOk ((joinSepPre sep (its.map Prod.fst) ++ tail).head?.map PTok.val) := by
      cases its with
      | nil => simpa [joinSepPre] using hOkTail
      | cons a l => simpa [joinSepPre] using hOkSep
    have hiv := hp iv (by simp) (joinSepPre sep (its.map Prod.fst) ++ tail) hctx
    have hrest : ∀ iv2 ∈ its, ∀ r : List PTok, headOk (r.head?.map PTok.val) →
        p (iv2.1 ++ r) = some (iv2.2, r) :=
      fun iv2 h2 => hp iv2 (by simp [h2])
    match fuel with
    | 0 =>
      exfalso
      simp [joinSepPre] at hlen
    | fuel + 1 =>
      have hsh : joinSepPre sep ((iv :: its).map Prod.fst) ++ tail =
          (⟨.comma, sep⟩ : PTok) :: (iv.1 ++ (joinSepPre sep (its.map Prod.fst) ++ tail)) := by
        simp [joinSepPre]
      have hlen2 : (joinSepPre sep (its.map Prod.fst) ++ tail).length ≤ fuel := by
        rw [hsh] at hlen
        simp only [List.length_cons, List.length_append] at hlen ⊢
        omega
      rw [hsh]
      simp only [sepRest]
      simp [hiv, ih hrest fuel tail hstop hOkSep hOkTail hlen2]

theorem parseSepList_exact (sep : String) (p : List PTok → Option (α × List PTok))
    (headOk : Option String → Prop) (iv0 : List PTok × α) (its : List (List PTok × α))
    (hp : ∀ iv ∈ iv0 :: its, ∀ r : List PTok, headOk (r.head?.map PTok.val) →
      p (iv.1 ++ r) = some (iv.2, r))
    (tail : List PTok) (hstop : sepStop sep p tail)
    (hOkSep : headOk (some sep)) (hOkTail : headOk (tail.head?.map PTok.val))
    (allowTrailing : Bool) :
    parseSepList sep p allowTrailing
        (iv0.1 ++ (joinSepPre sep (its.map Prod.fst) ++ tail)) =
      some ((iv0 :: its).map Prod.snd,
        if allowTrailing then
          match tail with
          | c :: rest3 => if c.val = sep then rest3 else tail
          | [] => ([] : List PTok)
        else tail) := by
  have hctx : headOk ((joinSepPre sep (its.map Prod.fst) ++ tail).head?.map PTok.val) := by
    cases its with
    | nil => simpa [joinSepPre] using hOkTail
    | cons a l => simpa [joinSepPre] using hOkSep
  have h0 := hp iv0 (by simp) (joinSepPre sep (its.map Prod.fst) ++ tail) hctx
  have hrest : ∀ iv2 ∈ its, ∀ r : List PTok, headOk (r.head?.map PTok.val) →
      p (iv2.1 ++ r) = some (iv2.2, r) :=
    fun iv2 h2 => hp iv2 (by simp [h2])
  have hloop := sepRest_exact sep p headOk its hrest
    (joinSepPre sep (its.map Prod.fst) ++ tail).length tail hstop hOkSep hOkTail (le_refl _)
  simp only [parseSepList, h0, hloop]
  cases allowTrailing
  · simp
  · match tail with
    | [] => simp
    | c :: rest3 => by_cases hc : c.val = sep <;> simp [hc]

/-- parser/common.go SyntaxType enum alternative (line 144):
`"\x7b" @@ ( "," @@ )* ","? "\x7d"` over NamedNumber, trailing comma
permitted. -/
def parseEnumBody (ts : List PTok) : Option (List (String × String) × List PTok) :=
  match ts with
  | b :: rest =>
    if b.val = "\x7b" then
      (match parseSepList "," parseNamedNumber true rest with
        | some (items, c :: rest2) =>
          if c.val = "\x7d" then some (items, rest2) else none
        | _ => none)
    else none
  | [] => none

/-- parser/common.go SubType (lines 125-130): ranges under SIZE(...) for the
octet-string family, or bare ranges for the integer family. -/
structure PSubType where
  octets : List PRange
  ints : List PRange
  deriving DecidableEq, Repr

/-- parser/common.go SubType: ordered choice
`( "SIZE" "(" Range ("|" Range)* ")" ) | Range ("|" Range)*`,
with participle backtracking into the second alternative when the first
fails. -/
def parseSubType (ts : List PTok) : Option (PSubType × List PTok) :=
  let alt1 : Option (PSubType × List PTok) :=
    match ts with
    | t :: q :: rest =>
      if t.val = "SIZE" ∧ q.val = "(" then
        (match parseSepList "|" parseRange false rest with
          | some (rs, c :: rest2) =>
            if c.val = ")" then some (⟨rs, []⟩, rest2) else none
          | _ => none)
      else none
    | _ => none
  match alt1 with
  | some res => some res
  | none =>
    match parseSepList "|" parseRange false ts with
    | some (rs, rest) => some (⟨[], rs⟩, rest)
    | none => none

/-- parser/common.go SyntaxType (lines 139-145). -/
structure PSyntaxType where
  name : String
  sub : Option PSubType
  enum : Option (List (String × String))
  deriving DecidableEq, Repr

/-- parser/common.go SyntaxType: a type name (OctetString, ObjectIdentifier
or Ident token) followed by an optional refinement — either `( SubType )` or
a brace enum — with the optional group backtracked off when it fails. -/
def parseSyntaxType (ts : List PTok) : Option (PSyntaxType × List PTok) :=
  match ts with
  | n :: rest =>
    if n.kind = .octetString ∨ n.kind = .objectIdentifier ∨ n.kind = .ident then
      (match rest with
        | t :: rest2 =>
          if t.val = "(" then
            (match parseSubType rest2 with
              | some (st, c :: rest3) =>
                if c.val = ")" then some (⟨n.val, some st, none⟩, rest3)
                else some (⟨n.val, none, none⟩, rest)
              | _ => some (⟨n.val, none, none⟩, rest))
          else if t.val = "\x7b" then
            (match parseEnumBody rest with
              | some (e, rest3) => some (⟨n.val, none, some e⟩, rest3)
              | none => some (⟨n.val, none, none⟩, rest))
          else some (⟨n.val, none, none⟩, rest)
        | [] => some (⟨n.val, none, none⟩, []))
    else none
  | [] => none

/-- parser/type.go SequenceEntry (lines 19-24): `@Ident @@` with a
SyntaxType body. -/
def parseSequenceEntry (ts : List PTok) :
    Option ((String × PSyntaxType) × List PTok) :=
  match ts with
  | n :: rest =>
    if n.kind = .ident then
      (match parseSyntaxType rest with
        | some (st, rest2) => some ((n.val, st), rest2)
        | none => none)
    else none
  | [] => none

/-- parser/type.go Sequence (lines 33-38):
`@("CHOICE"|"SEQUENCE") "\x7b" @@ ( "," @@ )* "\x7d"` — note that the
entry list has NO trailing-comma option. -/
def parseSequence (ts : List PTok) :
    Option ((String × List (String × PSyntaxType)) × List PTok) :=
  match ts with
  | k :: b :: rest =>
    if (k.val = "CHOICE" ∨ k.val = "SEQUENCE") ∧ b.val = "\x7b" then
      (match parseSepList "," parseSequenceEntry false rest with
        | some (es, c :: rest2) =>
          if c.val = "\x7d" then some ((k.val, es), rest2) else none
        | _ => none)
    else none
  | _ => none

/-- `@Ident` as a list item. -/
def parseIdentItem : List PTok → Option (String × List PTok)
  | t :: rest => if t.kind = .ident then some (t.val, rest) else none
  | [] => none

/-- A brace list of Idents with optional trailing comma:
`"\x7b" @Ident ( "," @Ident )* ","? "\x7d"` — the list shape of
MANDATORY-GROUPS (compliance.go line 94), CREATION-REQUIRES (line 18)
and INCLUDES (line 27). -/
def parseIdentBraceList (ts : List PTok) : Option (List String × List PTok) :=
  match ts with
  | b :: rest =>
    if b.val = "\x7b" then
      (match parseSepList "," parseIdentItem true rest with
        | some (xs, c :: rest2) =>
          if c.val = "\x7d" then some (xs, rest2) else none
        | _ => none)
    else none
  | [] => none

/-- parser/compliance.go line 94: the MANDATORY-GROUPS clause. -/
def parseMandatoryGroups (ts : List PTok) : Option (List String × List PTok) :=
  match ts with
  | t :: rest =>
    if t.val = "MANDATORY-GROUPS" then parseIdentBraceList rest else none
  | [] => none

/-- parser/compliance.go line 18: the CREATION-REQUIRES clause. -/
def parseCreationRequires (ts : List PTok) : Option (List String × List PTok) :=
  match ts with
  | t :: rest =>
    if t.val = "CREATION-REQUIRES" then parseIdentBraceList rest else none
  | [] => none

/-- Modelled from the spec: the OBJECT-GROUP OBJECTS clause
`OBJECTS \x7b Ident (, Ident)* ,? \x7d` (spec §4.3); the node.go file
holding the ObjectGroup grammar is not among the provided sources, and the
spec fixes this list shape, identical to the other Ident brace lists. -/
def parseObjectsClause (ts : List PTok) : Option (List String × List PTok) :=
  match ts with
  | t :: rest =>
    if t.val = "OBJECTS" then parseIdentBraceList rest else none
  | [] => none

/-- The SubIdentifier shapes of parser/common.go (repository version,
src/unnamed/part_004 lines 19-82). -/
inductive PSubId where
  | num (v : String)
  | name (v : String)
  | namedNum (n : String) (v : String)
  deriving DecidableEq, Repr

/-- The custom SubIdentifier parser (part_004): an Int; or an Ident
optionally followed by `( Int )`. -/
def parseSubIdentifier : List PTok → Option (PSubId × List PTok)
  | [] => none
  | t :: rest =>
    if t.kind = .int then some (.num t.val, rest)
    else if t.kind = .ident then
      (match rest with
        | p :: rest2 =>
          if p.val = "(" then
            (match rest2 with
              | n :: c :: rest3 =>
                if n.kind = .int ∧ c.val = ")" then
                  some (.namedNum t.val n.val, rest3)
                else none
              | _ => none)
          else some (.name t.val, rest)
        | [] => some (.name t.val, []))
    else none

/-- The `@@+` repetition of Oid (common.go line 87): sub-identifiers until
the sub-parser fails. -/
def parseSubIds : Nat → List PTok → List PSubId × List PTok
  | 0, ts => ([], ts)
  | fuel + 1, ts =>
    match parseSubIdentifier ts with
    | some (x, rest) =>
      let q := parseSubIds fuel rest
      (x :: q.1, q.2)
    | none => ([], ts)

/-- The OID assignment list `"\x7b" SubIdentifier+ "\x7d"`: the Oid
production of common.go inside the braces of the `::= \x7b ... \x7d`
assignment context of the node grammar (spec §3.3: at least one
sub-identifier, no commas). -/
def parseOidBraceList (ts : List PTok) : Option (List PSubId × List PTok) :=
  match ts with
  | b :: rest =>
    if b.val = "\x7b" then
      (match parseSubIds rest.length rest with
        | ([], _) => none
        | (xs, c :: rest2) =>
          if c.val = "\x7d" then some (xs, rest2) else none
        | (_, []) => none)
    else none
  | [] => none

def nnToks (nv : String × String) : List PTok :=
  [idTok nv.1, lparenTok, intTok nv.2, rparenTok]

theorem parseNamedNumber_exact (nv : String × String) (hv : nv.2 ≠ "-")
    (r : List PTok) : parseNamedNumber (nnToks nv ++ r) = some (nv, r) := by
  simp [nnToks, parseNamedNumber, idTok, lparenTok, intTok, rparenTok,
    parseSignedInt, hv]

theorem parseNamedNumber_rbrace (r : List PTok) :
    parseNamedNumber (rbraceTok :: r) = none := by
  cases r <;> simp [parseNamedNumber, rbraceTok]

theorem parseSyntaxType_plain (t : String) (r : List PTok)
    (h1 : r.head?.map PTok.val ≠ some "(")
    (h2 : r.head?.map PTok.val ≠ some "\x7b") :
    parseSyntaxType (idTok t :: r) = some (⟨t, none, none⟩, r) := by
  rcases r with _ | ⟨x, xs⟩
  · simp [parseSyntaxType, idTok]
  · have hx1 : x.val ≠ "(" := by simpa using h1
    have hx2 : x.val ≠ "\x7b" := by simpa using h2
    simp [parseSyntaxType, idTok, hx1, hx2]

def seToks (e : String × String) : List PTok := [idTok e.1, idTok e.2]

theorem parseSequenceEntry_exact (e : String × String) (r : List PTok)
    (h1 : r.head?.map PTok.val ≠ some "(")
    (h2 : r.head?.map PTok.val ≠ some "\x7b") :
    parseSequenceEntry (seToks e ++ r) = some ((e.1, ⟨e.2, none, none⟩), r) := by
  have hst := parseSyntaxType_plain e.2 r h1 h2
  simp [seToks, parseSequenceEntry, hst]

theorem parseSequenceEntry_rbrace (r : List PTok) :
    parseSequenceEntry (rbraceTok :: r) = none := by
  simp [parseSequenceEntry, rbraceTok]

theorem parseIdentItem_exact (v : String) (r : List PTok) :
    parseIdentItem ([idTok v] ++ r) = some (v, r) := by
  simp [parseIdentItem, idTok]

theorem parseIdentItem_rbrace (r : List PTok) :
    parseIdentItem (rbraceTok :: r) = none := by
  simp [parseIdentItem, rbraceTok]

/-- Ident brace list with a trailing comma parses to the item values. -/
theorem parseIdentBraceList_trailing (v0 : String) (vs : List String)
    (rest : List PTok) :
    parseIdentBraceList (lbraceTok :: ([idTok v0] ++
        (joinSepPre "," (vs.map (fun v => [idTok v])) ++
          (commaTok :: rbraceTok :: rest)))) = some (v0 :: vs, rest) := by
  have hlist := parseSepList_exact "," parseIdentItem (fun _ => True)
    ([idTok v0], v0) (vs.map (fun v => ([idTok v], v)))
    (by
      intro iv hiv r _
      rcases List.mem_cons.1 hiv with h | h
      · rw [h]
        exact parseIdentItem_exact v0 r
      · simp only [List.mem_map] at h
        obtain ⟨v, hv, hveq⟩ := h
        rw [← hveq]
        exact parseIdentItem_exact v r)
    (commaTok :: rbraceTok :: rest)
    (Or.inr (parseIdentItem_rbrace rest)) trivial trivial true
  simp only [List.map_map] at hlist
  have hfst : (Prod.fst ∘ fun v => (([idTok v], v) : List PTok × String)) =
      fun v => [idTok v] := rfl
  have hsnd : (Prod.snd ∘ fun v => (([idTok v], v) : List PTok × String)) =
      fun v => v := rfl
  rw [hfst] at hlist
  simp only [List.map_cons, List.map_map, hsnd, List.map_id'] at hlist
  simp only [List.singleton_append, if_true, commaTok_val, if_pos rfl] at hlist
  simp [parseIdentBraceList, hlist]

/-- Enum body with a trailing comma parses to the named numbers. -/
theorem parseEnumBody_trailing (nv0 : String × String)
    (nvs : List (String × String)) (rest : List PTok)
    (hv0 : nv0.2 ≠ "-") (hvs : ∀ nv ∈ nvs, nv.2 ≠ "-") :
    parseEnumBody (lbraceTok :: (nnToks nv0 ++
        (joinSepPre "," (nvs.map nnToks) ++
          (commaTok :: rbraceTok :: rest)))) = some (nv0 :: nvs, rest) := by
  have hlist := parseSepList_exact "," parseNamedNumber (fun _ => True)
    (nnToks nv0, nv0) (nvs.map (fun nv => (nnToks nv, nv)))
    (by
      intro iv hiv r _
      rcases List.mem_cons.1 hiv with h | h
      · rw [h]
        exact parseNamedNumber_exact nv0 hv0 r
      · simp only [List.mem_map] at h
        obtain ⟨nv, hnv, hveq⟩ := h
        rw [← hveq]
        exact parseNamedNumber_exact nv (hvs nv hnv) r)
    (commaTok :: rbraceTok :: rest)
    (Or.inr (parseNamedNumber_rbrace rest)) trivial trivial true
  simp only [List.map_map] at hlist
  have hfst : (Prod.fst ∘ fun nv => ((nnToks nv, nv) :
      List PTok × (String × String))) = nnToks := rfl
  have hsnd : (Prod.snd ∘ fun nv => ((nnToks nv, nv) :
      List PTok × (String × String))) = fun nv => nv := rfl
  rw [hfst] at hlist
  simp only [List.map_cons, List.map_map, hsnd, List.map_id'] at hlist
  simp only [if_true, commaTok_val, if_pos rfl] at hlist
  simp [parseEnumBody, hlist]

/-- The value a SequenceEntry of name/plain-type shape parses to. -/
def entVal (e : String × String) : String × PSyntaxType :=
  (e.1, ⟨e.2, none, none⟩)

/-- The entry list of a Sequence: exact parse with NO trailing-comma
allowance, stopping at `tail`. -/
theorem parseSequenceEntries_exact (e0 : String × String)
    (es : List (String × String)) (tail : List PTok)
    (hstop : sepStop "," parseSequenceEntry tail)
    (hOkTail : tail.head?.map PTok.val ≠ some "(" ∧
      tail.head?.map PTok.val ≠ some "\x7b") :
    parseSepList "," parseSequenceEntry false
        (seToks e0 ++ (joinSepPre "," (es.map seToks) ++ tail)) =
      some (entVal e0 :: es.map entVal, tail) := by
  have hlist := parseSepList_exact "," parseSequenceEntry
    (fun o => o ≠ some "(" ∧ o ≠ some "\x7b")
    (seToks e0, entVal e0) (es.map (fun e => (seToks e, entVal e)))
    (by
      intro iv hiv r hok
      rcases List.mem_cons.1 hiv with h | h
      · rw [h]
        exact parseSequenceEntry_exact e0 r hok.1 hok.2
      · simp only [List.mem_map] at h
        obtain ⟨e, he, heq⟩ := h
        rw [← heq]
        exact parseSequenceEntry_exact e r hok.1 hok.2)
    tail hstop (by simp) hOkTail false
  simp only [List.map_map] at hlist
  have hfst : (Prod.fst ∘ fun e => ((seToks e, entVal e) :
      List PTok × (String × PSyntaxType))) = seToks := rfl
  have hsnd : (Prod.snd ∘ fun e => ((seToks e, entVal e) :
      List PTok × (String × PSyntaxType))) = entVal := rfl
  rw [hfst] at hlist
  simp only [List.map_cons, List.map_map, hsnd] at hlist
  simpa using hlist

/-- First lexeme of a sub-identifier. -/
def sidFirstVal : PSubId → String
  | .num v => v
  | .name v => v
  | .namedNum n _ => n

/-- Token layout of a sub-identifier. -/
def sidToks : PSubId → List PTok
  | .num v => [intTok v]
  | .name v => [idTok v]
  | .namedNum n v => [idTok n, lparenTok, intTok v, rparenTok]

/-- Token layout of an OID sub-identifier list: juxtaposition, no
separators. -/
def sidJoin (sids : List PSubId) : List PTok :=
  sids.flatMap sidToks

theorem parseSubIdentifier_exact (s : PSubId) (r : List PTok)
    (h : r.head?.map PTok.val ≠ some "(") :
    parseSubIdentifier (sidToks s ++ r) = some (s, r) := by
  cases s with
  | num v => simp [sidToks, parseSubIdentifier, intTok]
  | name v =>
    rcases r with _ | ⟨x, xs⟩
    · simp [sidToks, parseSubIdentifier, idTok]
    · have hx : x.val ≠ "(" := by simpa using h
      simp [sidToks, parseSubIdentifier, idTok, hx]
  | namedNum n v =>
    simp [sidToks, parseSubIdentifier, idTok, lparenTok, intTok, rparenTok]

theorem parseSubIds_exact (sids : List PSubId) (tail : List PTok)
    (hstop : parseSubIdentifier tail = none)
    (hok : tail.head?.map PTok.val ≠ some "(")
    (hfv : ∀ s ∈ sids, sidFirstVal s ≠ "(") :
    ∀ fuel, sids.length ≤ fuel →
    parseSubIds fuel (sidJoin sids ++ tail) = (sids, tail) := by
  induction sids with
  | nil =>
    intro fuel _
    cases fuel <;> simp [sidJoin, parseSubIds, hstop]
  | cons s ss ih =>
    intro fuel hlen
    cases fuel with
    | zero => simp at hlen
    | succ fuel =>
      have hhead : (sidJoin ss ++ tail).head?.map PTok.val ≠ some "(" := by
        cases ss with
        | nil => simpa [sidJoin] using hok
        | cons a l =>
          have ha := hfv a (by simp)
          cases a <;>
            simpa [sidJoin, sidToks, idTok, intTok, sidFirstVal] using ha
      have h1 := parseSubIdentifier_exact s (sidJoin ss ++ tail) hhead
      have hrec := ih (fun x hx => hfv x (List.mem_cons_of_mem s hx)) fuel
        (by simp only [List.length_cons] at hlen; omega)
      have hshape : sidJoin (s :: ss) ++ tail =
          sidToks s ++ (sidJoin ss ++ tail) := by
        simp [sidJoin]
      rw [hshape]
      simp [parseSubIds, h1, hrec]

theorem sidJoin_len (sids : List PSubId) :
    sids.length ≤ (sidJoin sids).length := by
  induction sids with
  | nil => simp [sidJoin]
  | cons s ss ih =>
    cases s <;> simp [sidJoin, sidToks] at * <;> omega

/-- Any comma inside the braces of an OID list makes the parse fail. -/
theorem parseOidBraceList_comma (sids : List PSubId) (tail : List PTok)
    (hfv : ∀ s ∈ sids, sidFirstVal s ≠ "(") :
    parseOidBraceList (lbraceTok :: (sidJoin sids ++ (commaTok :: tail))) =
      none := by
  have hstop : parseSubIdentifier (commaTok :: tail) = none := by
    simp [parseSubIdentifier, commaTok]
  have hok : (commaTok :: tail).head?.map PTok.val ≠ some "(" := by
    simp [commaTok]
  have hlen : sids.length ≤ (sidJoin sids ++ (commaTok :: tail)).length := by
    have := sidJoin_len sids
    simp only [List.length_append]
    omega
  have h := parseSubIds_exact sids (commaTok :: tail) hstop hok hfv
    (sidJoin sids ++ (commaTok :: tail)).length hlen
  simp only [List.length_append, List.length_cons] at h
  cases sids with
  | nil => simp [parseOidBraceList, parseSubIds, sidJoin,
      parseSubIdentifier, commaTok]
  | cons s0 ss => simp [parseOidBraceList, h]

/-- A comma-free nonempty OID list parses to its sub-identifiers. -/
theorem parseOidBraceList_exact (s0 : PSubId) (sids : List PSubId)
    (rest : List PTok)
    (hfv : ∀ s ∈ s0 :: sids, sidFirstVal s ≠ "(") :
    parseOidBraceList (lbraceTok :: (sidJoin (s0 :: sids) ++
        (rbraceTok :: rest))) = some (s0 :: sids, rest) := by
  have hstop : parseSubIdentifier (rbraceTok :: rest) = none := by
    simp [parseSubIdentifier, rbraceTok]
  have hok : (rbraceTok :: rest).head?.map PTok.val ≠ some "(" := by
    simp [rbraceTok]
  have hlen : (s0 :: sids).length ≤
      (sidJoin (s0 :: sids) ++ (rbraceTok :: rest)).length := by
    have := sidJoin_len (s0 :: sids)
    simp only [List.length_append]
    omega
  have h := parseSubIds_exact (s0 :: sids) (rbraceTok :: rest) hstop hok hfv
    (sidJoin (s0 :: sids) ++ (rbraceTok :: rest)).length hlen
  simp only [List.length_append, List.length_cons] at h
  simp [parseOidBraceList, h]

/-- C3 (amended): the parser accepts a trailing comma before the closing
brace in enum lists, group OBJECT lists, MANDATORY-GROUPS lists and
CREATION-REQUIRES lists, but it REJECTS a trailing comma in
SEQUENCE/CHOICE entry lists (whose grammar tag has no trailing-comma
option), and it rejects any comma at all — trailing or interior — in OID
sub-identifier lists, while the comma-free forms of the latter two parse. -/
theorem claim_C3
    (nv0 : String × String) (nvs : List (String × String))
    (kw : String) (e0 : String × String) (es : List (String × String))
    (v0 : String) (vs : List String)
    (s0 : PSubId) (sids : List PSubId) (oidTail rest : List PTok)
    (hv0 : nv0.2 ≠ "-") (hvs : ∀ nv ∈ nvs, nv.2 ≠ "-")
    (hkw : kw = "SEQUENCE" ∨ kw = "CHOICE")
    (hfv : ∀ s ∈ s0 :: sids, sidFirstVal s ≠ "(") :
    parseEnumBody (lbraceTok :: (nnToks nv0 ++
        (joinSepPre "," (nvs.map nnToks) ++
          (commaTok :: rbraceTok :: rest)))) = some (nv0 :: nvs, rest) ∧
    parseSequence (idTok kw :: (lbraceTok :: (seToks e0 ++
        (joinSepPre "," (es.map seToks) ++
          (commaTok :: rbraceTok :: rest))))) = none ∧
    parseSequence (idTok kw :: (lbraceTok :: (seToks e0 ++
        (joinSepPre "," (es.map seToks) ++ (rbraceTok :: rest))))) =
      some ((kw, entVal e0 :: es.map entVal), rest) ∧
    parseMandatoryGroups (idTok "MANDATORY-GROUPS" :: (lbraceTok ::
        ([idTok v0] ++ (joinSepPre "," (vs.map (fun v => [idTok v])) ++
          (commaTok :: rbraceTok :: rest))))) = some (v0 :: vs, rest) ∧
    parseCreationRequires (idTok "CREATION-REQUIRES" :: (lbraceTok ::
        ([idTok v0] ++ (joinSepPre "," (vs.map (fun v => [idTok v])) ++
          (commaTok :: rbraceTok :: rest))))) = some (v0 :: vs, rest) ∧
    parseObjectsClause (idTok "OBJECTS" :: (lbraceTok ::
        ([idTok v0] ++ (joinSepPre "," (vs.map (fun v => [idTok v])) ++
          (commaTok :: rbraceTok :: rest))))) = some (v0 :: vs, rest) ∧
    parseOidBraceList (lbraceTok :: (sidJoin (s0 :: sids) ++
        (commaTok :: oidTail))) = none ∧
    parseOidBraceList (lbraceTok :: (sidJoin (s0 :: sids) ++
        (rbraceTok :: rest))) = some (s0 :: sids, rest) := by
  refine ⟨parseEnumBody_trailing nv0 nvs rest hv0 hvs, ?_, ?_, ?_, ?_, ?_,
    parseOidBraceList_comma (s0 :: sids) oidTail hfv,
    parseOidBraceList_exact s0 sids rest hfv⟩
  · have h := parseSequenceEntries_exact e0 es (commaTok :: rbraceTok :: rest)
      (Or.inr (parseSequenceEntry_rbrace rest)) (by simp)
    rcases hkw with hk | hk <;> subst hk <;> simp [parseSequence, h]
  · have h := parseSequenceEntries_exact e0 es (rbraceTok :: rest)
      (Or.inl (by simp)) (by simp)
    rcases hkw with hk | hk <;> subst hk <;> simp [parseSequence, h]
  · have h := parseIdentBraceList_trailing v0 vs rest
    simp only [List.singleton_append] at h
    simp [parseMandatoryGroups, h]
  · have h := parseIdentBraceList_trailing v0 vs rest
    simp only [List.singleton_append] at h
    simp [parseCreationRequires, h]
  · have h := parseIdentBraceList_trailing v0 vs rest
    simp only [List.singleton_append] at h
    simp [parseObjectsClause, h]

/-- A SEQUENCE entry list with a trailing comma is a parse error, though the
same list without the comma parses: the trailing-comma half of the original
claim fails for SEQUENCE/CHOICE entry lists. -/
theorem claim_C3_counterexample :
    parseSequence [idTok "SEQUENCE", lbraceTok, idTok "ifIndex",
        idTok "INTEGER", commaTok, rbraceTok] = none ∧
    parseSequence [idTok "SEQUENCE", lbraceTok, idTok "ifIndex",
        idTok "INTEGER", rbraceTok] =
      some (("SEQUENCE", [("ifIndex", ⟨"INTEGER", none, none⟩)]), []) := by
  constructor <;> rfl

/-- C3 witness: concrete instances of every conjunct. -/
theorem claim_C3_witness :
    parseEnumBody (lbraceTok :: (nnToks ("up", "1") ++
        (joinSepPre "," (([] : List (String × String)).map nnToks) ++
          (commaTok :: rbraceTok :: [])))) = some ([("up", "1")], []) ∧
    parseSequence (idTok "SEQUENCE" :: (lbraceTok ::
        (seToks ("ifIndex", "INTEGER") ++
        (joinSepPre "," (([] : List (String × String)).map seToks) ++
          (commaTok :: rbraceTok :: []))))) = none ∧
    parseSequence (idTok "SEQUENCE" :: (lbraceTok ::
        (seToks ("ifIndex", "INTEGER") ++
        (joinSepPre "," (([] : List (String × String)).map seToks) ++
          (rbraceTok :: []))))) =
      some (("SEQUENCE", entVal ("ifIndex", "INTEGER") ::
        ([] : List (String × String)).map entVal), []) ∧
    parseMandatoryGroups (idTok "MANDATORY-GROUPS" :: (lbraceTok ::
        ([idTok "grp"] ++
          (joinSepPre "," (([] : List String).map (fun v => [idTok v])) ++
          (commaTok :: rbraceTok :: []))))) = some (["grp"], []) ∧
    parseCreationRequires (idTok "CREATION-REQUIRES" :: (lbraceTok ::
        ([idTok "grp"] ++
          (joinSepPre "," (([] : List String).map (fun v => [idTok v])) ++
          (commaTok :: rbraceTok :: []))))) = some (["grp"], []) ∧
    parseObjectsClause (idTok "OBJECTS" :: (lbraceTok ::
        ([idTok "grp"] ++
          (joinSepPre "," (([] : List String).map (fun v => [idTok v])) ++
          (commaTok :: rbraceTok :: []))))) = some (["grp"], []) ∧
    parseOidBraceList (lbraceTok :: (sidJoin [PSubId.num "1"] ++
        (commaTok :: [rbraceTok]))) = none ∧
    parseOidBraceList (lbraceTok :: (sidJoin [PSubId.num "1"] ++
        (rbraceTok :: []))) = some ([PSubId.num "1"], []) :=
  claim_C3 ("up", "1") [] "SEQUENCE" ("ifIndex", "INTEGER") [] "grp" []
    (PSubId.num "1") [] [rbraceTok] [] (by decide) (by simp) (Or.inl rfl)
    (by decide)

/-- parser/parser.go findMibFile (lines 190-196): the candidate filenames
for a module, in order. -/
def possibleFilenames (moduleName : String) : List String :=
  [moduleName ++ ".mib", moduleName ++ ".txt", moduleName]

/-- filepath.Join for the modelled slash-separated absolute paths. -/
def joinPath (dir fname : String) : String :=
  dir ++ "/" ++ fname

/-- filepath.Dir for the modelled slash-separated paths: everything before
the last slash ("." when there is none, "/" at the root). -/
def dirOf (p : String) : String :=
  match p.toList.reverse.dropWhile (fun c => c ≠ '/') with
  | [] => "."
  | _ :: tl => if tl = [] then "/" else ⟨tl.reverse⟩

/-- The inner loop of findMibFile (lines 205-211): try each candidate
filename inside one directory, first hit wins.  `stat` abstracts os.Stat
succeeding. -/
def findInDir (stat : String → Bool) (dir : String) :
    List String → Option String
  | [] => none
  | f :: fs =>
    if stat (joinPath dir f) then some (joinPath dir f)
    else findInDir stat dir fs

/-- parser/parser.go findMibFile (lines 185-215): directories outer loop,
candidate filenames inner loop. -/
def findMibFile (stat : String → Bool) (moduleName : String) :
    List String → Option String
  | [] => none
  | dir :: dirs =>
    match findInDir stat dir (possibleFilenames moduleName) with
    | some p => some p
    | none => findMibFile stat moduleName dirs

/-- The loader view of a parsed module: its name and the modules its
IMPORTS clause references. -/
structure GoModule where
  name : String
  imports : List String
  deriving DecidableEq, Repr

/-- The imports loop of loadMibRecursive (parser.go lines 146-177):
skip already-loaded modules, resolve the rest with findMibFile over the
fixed directory list, recurse through `recur`, abort on the first failure.
The module map is an association list in insertion order. -/
def loadImports (stat : String → Bool) (mibDirs : List String)
    (recur : String → List (String × GoModule) →
      List (String × GoModule) × Option String) :
    List String → List (String × GoModule) →
    List (String × GoModule) × Option String
  | [], acc => (acc, none)
  | imp :: imps, acc =>
    if (acc.lookup imp).isSome then
      loadImports stat mibDirs recur imps acc
    else
      match findMibFile stat imp mibDirs with
      | none =>
        (acc, some ("could not find MIB file for imported module " ++ imp))
      | some p =>
        match recur p acc with
        | (acc2, some e) => (acc2, some e)
        | (acc2, none) => loadImports stat mibDirs recur imps acc2

/-- parser.go loadMibRecursive (lines 123-180): parse the file, dedup by
module name after parsing, then walk the imports.  The Nat fuel bounds the
recursion depth; running out is reported as an error. -/
def loadRec (stat : String → Bool) (parse : String → Option GoModule)
    (mibDirs : List String) :
    Nat → String → List (String × GoModule) →
    List (String × GoModule) × Option String
  | 0, _, acc => (acc, some "recursion limit reached")
  | fuel + 1, mibPath, acc =>
    match parse mibPath with
    | none => (acc, some ("failed to parse MIB " ++ mibPath))
    | some m =>
      if (acc.lookup m.name).isSome then (acc, none)
      else
        loadImports stat mibDirs (loadRec stat parse mibDirs fuel)
          m.imports (acc ++ [(m.name, m)])

/-- parser.go LoadMibTree (lines 101-118): prepend the root MIB file's own
directory to the user-supplied search directories, load recursively, and
return (nil, err) on any failure or (the map, nil) on success. -/
def LoadMibTree (stat : String → Bool) (parse : String → Option GoModule)
    (fuel : Nat) (rootMibPath : String) (mibDirs : List String) :
    Option (List (String × GoModule)) × Option String :=
  match loadRec stat parse (dirOf rootMibPath :: mibDirs) fuel
      rootMibPath [] with
  | (_, some e) => (none, some e)
  | (acc, none) => (some acc, none)

/-- All candidate paths of a module over a directory list, in the order
the spec prescribes: directories outermost, the three filename variants
within each directory. -/
def allCandidates (moduleName : String) (dirs : List String) : List String :=
  dirs.flatMap (fun d => (possibleFilenames moduleName).map (joinPath d))

theorem find_or_append (p : α → Bool) (l1 l2 : List α) :
    (l1 ++ l2).find? p = ((l1.find? p).or (l2.find? p)) := by
  induction l1 with
  | nil => simp
  | cons a l ih =>
    by_cases h : p a <;> simp [List.find?_cons, h, ih, Option.or]

theorem findInDir_eq (stat : String → Bool) (d : String) (fs : List String) :
    findInDir stat d fs = (fs.map (joinPath d)).find? stat := by
  induction fs with
  | nil => simp [findInDir]
  | cons f fs ih =>
    by_cases h : stat (joinPath d f) <;>
      simp [findInDir, List.find?_cons, h, ih]

theorem findMibFile_eq (stat : String → Bool) (m : String)
    (dirs : List String) :
    findMibFile stat m dirs = (allCandidates m dirs).find? stat := by
  induction dirs with
  | nil => simp [findMibFile, allCandidates]
  | cons d ds ih =>
    have hsplit : allCandidates m (d :: ds) =
        (possibleFilenames m).map (joinPath d) ++ allCandidates m ds := by
      simp [allCandidates]
    rw [hsplit, find_or_append]
    simp only [findMibFile, findInDir_eq, ih]
    cases ((possibleFilenames m).map (joinPath d)).find? stat <;>
      simp [Option.or]

theorem loadRec_succ (stat : String → Bool) (parse : String → Option GoModule)
    (mibDirs : List String) (fuel : Nat) (mibPath : String)
    (acc : List (String × GoModule)) :
    loadRec stat parse mibDirs (fuel + 1) mibPath acc =
      match parse mibPath with
      | none => (acc, some ("failed to parse MIB " ++ mibPath))
      | some m =>
        if (acc.lookup m.name).isSome then (acc, none)
        else loadImports stat mibDirs (loadRec stat parse mibDirs fuel)
          m.imports (acc ++ [(m.name, m)]) := rfl

/-- A filesystem fixture: the root directory /r holds the dependency as a
bare extensionless file, the user directory /u holds it as a .mib file. -/
def statFix (p : String) : Bool :=
  p = "/r/DEP-MIB" || p = "/u/DEP-MIB.mib"

/-- A parse fixture: the root MIB parses to a module importing DEP-MIB;
every other path (in particular the dependency file found for DEP-MIB)
fails to parse. -/
def parseFix (p : String) : Option GoModule :=
  if p = "/r/ROOT.mib" then some ⟨"ROOT-MIB", ["DEP-MIB"]⟩ else none

/-- C9: findMibFile resolves a module to the first existing candidate in
directory-major order (each directory tried with <MODULE>.mib, then
<MODULE>.txt, then <MODULE>), and the tree loader searches the root MIB
file's own directory before the user-supplied directories: the dependency
file it parses is exactly the first existing candidate over
dirOf(root) :: dirs. -/
theorem claim_C9 (stat : String → Bool) (parse : String → Option GoModule)
    (fuel : Nat) (root : String) (dirs : List String)
    (rname m p : String)
    (hroot : parse root = some ⟨rname, [m]⟩) (hm : m ≠ rname)
    (hfind : (allCandidates m (dirOf root :: dirs)).find? stat = some p)
    (hp : parse p = none) :
    (∀ m2 dirs2, findMibFile stat m2 dirs2 =
      (allCandidates m2 dirs2).find? stat) ∧
    LoadMibTree stat parse (fuel + 2) root dirs =
      (none, some ("failed to parse MIB " ++ p)) := by
  refine ⟨fun m2 dirs2 => findMibFile_eq stat m2 dirs2, ?_⟩
  have hfd : findMibFile stat m (dirOf root :: dirs) = some p := by
    rw [findMibFile_eq]
    exact hfind
  have hmain : loadRec stat parse (dirOf root :: dirs) (fuel + 2) root [] =
      ([(rname, ⟨rname, [m]⟩)],
        some ("failed to parse MIB " ++ p)) := by
    rw [show fuel + 2 = (fuel + 1) + 1 from rfl, loadRec_succ, hroot]
    have hbe : (m == rname) = false := beq_eq_false_iff_ne.mpr hm
    simp only [List.lookup, Option.isSome_none, Bool.false_eq_true,
      if_false, List.nil_append, loadImports, hbe, hfd]
    rw [loadRec_succ, hp]
  simp [LoadMibTree, hmain]

/-- C9 witness: in the fixture the root directory holds only the
extensionless candidate and the user directory holds the .mib candidate;
directory-major order picks /r/DEP-MIB, and that very path is the one the
loader hands to the parser. -/
theorem claim_C9_witness :
    ((∀ m2 dirs2, findMibFile statFix m2 dirs2 =
        (allCandidates m2 dirs2).find? statFix) ∧
      LoadMibTree statFix parseFix (0 + 2) "/r/ROOT.mib" ["/u"] =
        (none, some ("failed to parse MIB " ++ "/r/DEP-MIB"))) ∧
    (allCandidates "DEP-MIB" (dirOf "/r/ROOT.mib" :: ["/u"])).find? statFix =
      some "/r/DEP-MIB" :=
  ⟨claim_C9 statFix parseFix 0 "/r/ROOT.mib" ["/u"] "ROOT-MIB" "DEP-MIB"
      "/r/DEP-MIB" rfl (by decide) rfl rfl, rfl⟩

/-- C10: LoadMibTree is all-or-nothing — whenever it reports an error the
returned module map is nil, never a partially populated map. -/
theorem claim_C10 (stat : String → Bool) (parse : String → Option GoModule)
    (fuel : Nat) (root : String) (dirs : List String) (e : String)
    (herr : (LoadMibTree stat parse fuel root dirs).2 = some e) :
    (LoadMibTree stat parse fuel root dirs).1 = none := by
  rcases hr : loadRec stat parse (dirOf root :: dirs) fuel root [] with ⟨acc, err⟩
  cases err <;> simp [LoadMibTree, hr] at herr ⊢

/-- C10 witness: in the fixture the recursive load stops with an error
while its working map already holds the root module, yet the interface
returns a nil map together with the error. -/
theorem claim_C10_witness :
    (loadRec statFix parseFix (dirOf "/r/ROOT.mib" :: ["/u"]) 2
        "/r/ROOT.mib" []).1 =
      [("ROOT-MIB", ⟨"ROOT-MIB", ["DEP-MIB"]⟩)] ∧
    (LoadMibTree statFix parseFix 2 "/r/ROOT.mib" ["/u"]).2 =
      some ("failed to parse MIB " ++ "/r/DEP-MIB") ∧
    (LoadMibTree statFix parseFix 2 "/r/ROOT.mib" ["/u"]).1 = none :=
  ⟨by decide, by decide, claim_C10 statFix parseFix 2 "/r/ROOT.mib" ["/u"]
    ("failed to parse MIB " ++ "/r/DEP-MIB") (by decide)⟩

end Gosmi
